import Mathlib

/-!
# GroceryItem: comparison operators and the text codec

A shallow embedding of `Submission/GroceryItem.cpp` and of the driver
`Submission/main.cpp`.

Modelling conventions

* `std::string` is a `List Char`; one `Char` stands for one `char`.
* `double` and `long double` are the type `Double` below: a finite value is a
  rational, next to the three special values `+inf`, `-inf` and `NaN`.  Every
  finite binary64 or extended value is a rational, and arithmetic rounds as the
  machine does, to nearest with ties to even: the difference of two `double`s is
  the exact difference rounded to binary64 (`binary64`); the literals `1e-4L`
  and `1e-8L` and the product of `1e-8L` with a `double` are rounded to the
  extended format of the x87 unit, the `long double` of GCC and Clang on x86-64
  (`long_double`); a price read from text is the binary64 number nearest to its
  decimal value.  Comparisons are exact comparisons of the rounded values.
  Where the specification names prices by decimal literals, the prices are the
  binary64 values of the literals.
* Limits of the value space.  The exponent is unbounded: a number read from text
  never overflows (the library stores the largest `double` and sets the fail
  bit) and never underflows to a subnormal number or to zero.  There is one
  zero and one NaN, without a sign, so the outputs `-0` and `-nan` do not
  occur.  Inside `floating_point_is_equal` the bounded exponent of the machine
  does not change a result on binary64 operands: a difference of two binary64
  numbers below the normal range is exact, a difference that overflows is
  infinite on the machine and exceeds both tolerances here, and the extended
  format holds every product of `1e-8L` and a `double`.
* `std::istream` is the list of unread characters together with the fail bit;
  `std::ostream` is the list of characters written.  Streams carry the default
  formatting state (`skipws` set, precision 6, no field width, the "C" locale),
  which is the state of `std::cin` and `std::cout` in `main`.
* The standard library functions used by the source (`std::quoted`, the
  extractors for `char`, `std::string` and `double`, the inserter for `double`,
  `std::string::operator<=>`) are embedded after ISO C++ [quoted.manip],
  [istream.formatted], [facet.num.get.virtuals] and [facet.num.put.virtuals].
-/

namespace GroceryItemSpec

/-! ## Rounding to a binary format -/

/-- The quotient `n / d` rounded to the nearest integer, ties to even. -/
def round_half_even (n d : Nat) : Nat :=
  if 2 * (n % d) < d then n / d
  else if d < 2 * (n % d) then n / d + 1
  else if (n / d) % 2 = 0 then n / d else n / d + 1

/-- Largest `k`, searched upwards from `k` in `fuel` steps, with `d * 2 ^ k ≤ n`. -/
def exp2_up (n d : Nat) : Nat → Nat → Nat
  | 0, k => k
  | fuel + 1, k => if d * 2 ^ (k + 1) ≤ n then exp2_up n d fuel (k + 1) else k

/-- Smallest `k`, searched upwards from `k` in `fuel` steps, with `d ≤ n * 2 ^ k`. -/
def exp2_down (n d : Nat) : Nat → Nat → Nat
  | 0, k => k
  | fuel + 1, k => if d ≤ n * 2 ^ k then k else exp2_down n d fuel (k + 1)

/-- The binary exponent of the positive rational `n / d`: the integer `e` with
`2 ^ e ≤ n / d < 2 ^ (e + 1)`. -/
def binary_exponent (n d : Nat) : Int :=
  if d ≤ n then (exp2_up n d n 0 : Int) else -(exp2_down n d d 1 : Int)

/-- Rounding to `double`: the binary64 number nearest to the rational `q`, ties
to even, with a significand of 53 bits (normal range only; overflow and
subnormal numbers are not modelled).  It is the value of a decimal literal of
type `double`, the value that reading a decimal text yields, and the result of
an arithmetic operation on `double`s whose exact result is `q`. -/
def binary64 (q : ℚ) : ℚ :=
  if q.num = 0 then mkRat 0 1 else
  let n := q.num.natAbs
  let e := binary_exponent n q.den
  let m : Nat := if e ≤ 52 then round_half_even (n * 2 ^ (52 - e).toNat) q.den
                 else round_half_even n (q.den * 2 ^ (e - 52).toNat)
  let sm : Int := if q.num < 0 then -(m : Int) else (m : Int)
  if e ≤ 52 then mkRat sm (2 ^ (52 - e).toNat) else mkRat (sm * 2 ^ (e - 52).toNat) 1

/-- The positive rational `n / d` rounded to the nearest number with a
significand of `p + 1` bits, ties to even, with an unbounded exponent. -/
def round_pos (p n d : Nat) : ℚ :=
  if binary_exponent n d ≤ (p : Int) then
    mkRat (round_half_even (n * 2 ^ ((p : Int) - binary_exponent n d).toNat) d : Nat)
      (2 ^ ((p : Int) - binary_exponent n d).toNat)
  else
    mkRat ((round_half_even n (d * 2 ^ (binary_exponent n d - (p : Int)).toNat)
      * 2 ^ (binary_exponent n d - (p : Int)).toNat : Nat) : Int) 1

/-- The rational `q` rounded to the nearest number with a significand of `p + 1`
bits, ties to even, with an unbounded exponent. -/
def round_binary (p : Nat) (q : ℚ) : ℚ :=
  if q.num = 0 then 0
  else if q.num < 0 then -round_pos p q.num.natAbs q.den
  else round_pos p q.num.natAbs q.den

/-- Rounding to `long double`, the extended format of the x87 unit with a
significand of 64 bits, which is the `long double` of GCC and Clang on x86-64.
Its exponent range contains every product of `1e-8L` and a `double`. -/
def long_double (q : ℚ) : ℚ := round_binary 63 q

/-! ## Floating point values -/

/-- A `double` (or `long double`) value: an exact rational or one of the IEEE
special values. -/
inductive Double where
  | finite (q : ℚ)
  | posInf
  | negInf
  | nan
deriving DecidableEq

namespace Double

/-- IEEE subtraction `a - b` of two `double`s: the exact difference rounded to
binary64. -/
def sub : Double → Double → Double
  | finite a, finite b => finite (binary64 (a - b))
  | nan, _ => nan
  | _, nan => nan
  | posInf, posInf => nan
  | negInf, negInf => nan
  | posInf, _ => posInf
  | negInf, _ => negInf
  | finite _, posInf => negInf
  | finite _, negInf => posInf

/-- The function `std::abs` on a floating point value. -/
def abs : Double → Double
  | finite a => finite |a|
  | posInf => posInf
  | negInf => posInf
  | nan => nan

/-- IEEE comparison `a < b`: false as soon as one operand is NaN. -/
def lt : Double → Double → Bool
  | finite a, finite b => decide (a < b)
  | nan, _ => false
  | _, nan => false
  | negInf, negInf => false
  | negInf, _ => true
  | _, negInf => false
  | posInf, _ => false
  | finite _, posInf => true

/-- The function `std::max(a, b)`, which is `(a < b) ? b : a`. -/
def max (a b : Double) : Double := if lt a b then b else a

/-- IEEE multiplication `a * b` of a `long double` and a `double`, computed in
`long double`: the exact product rounded to the extended format. -/
def mul : Double → Double → Double
  | finite a, finite b => finite (long_double (a * b))
  | nan, _ => nan
  | _, nan => nan
  | finite a, posInf => if a = 0 then nan else if 0 < a then posInf else negInf
  | finite a, negInf => if a = 0 then nan else if 0 < a then negInf else posInf
  | posInf, finite b => if b = 0 then nan else if 0 < b then posInf else negInf
  | negInf, finite b => if b = 0 then nan else if 0 < b then negInf else posInf
  | posInf, posInf => posInf
  | negInf, negInf => posInf
  | posInf, negInf => negInf
  | negInf, posInf => negInf

/-- A value that is neither infinite nor NaN. -/
def isFinite : Double → Bool
  | finite _ => true
  | _ => false

end Double

/-- Default value `1e-4L` of the parameter `EPSILON1`: the `long double` nearest
to one ten-thousandth. -/
def EPSILON1 : Double := Double.finite (long_double (mkRat 1 10000))

/-- Default value `1e-8L` of the parameter `EPSILON2`: the `long double` nearest
to one hundred-millionth. -/
def EPSILON2 : Double := Double.finite (long_double (mkRat 1 100000000))

/-- The function `floating_point_is_equal(lhs, rhs)` with its default
tolerances, for two `double`s:
`abs(lhs - rhs) < EPSILON1 || abs(lhs - rhs) < EPSILON2 * max(abs(lhs), abs(rhs))`.
The difference is computed in `double`, the product in `long double`, and both
comparisons in `long double`, to which a `double` converts without change. -/
def floating_point_is_equal (lhs rhs : Double) : Bool :=
  Double.lt (Double.abs (Double.sub lhs rhs)) EPSILON1
    || Double.lt (Double.abs (Double.sub lhs rhs))
         (Double.mul EPSILON2 (Double.max (Double.abs lhs) (Double.abs rhs)))

/-! ## The record -/

/-- The class `GroceryItem`: its four data members, in the order of the
constructor's initialiser list. -/
structure GroceryItem where
  _productName : List Char
  _brandName : List Char
  _upcCode : List Char
  _price : Double
deriving DecidableEq

/-- The constructor `GroceryItem(productName, brandName, upcCode, price)`. -/
def GroceryItem.ctor (productName brandName upcCode : List Char) (price : Double) : GroceryItem :=
  { _productName := productName, _brandName := brandName, _upcCode := upcCode, _price := price }

/-- Accessor `upcCode() const &`. -/
def GroceryItem.upcCode (g : GroceryItem) : List Char := g._upcCode

/-- Accessor `brandName() const &`. -/
def GroceryItem.brandName (g : GroceryItem) : List Char := g._brandName

/-- Accessor `productName() const &`. -/
def GroceryItem.productName (g : GroceryItem) : List Char := g._productName

/-- Accessor `price() const &`. -/
def GroceryItem.price (g : GroceryItem) : Double := g._price

/-- Modelled from the spec: the default arguments of the constructor, declared
in `GroceryItem.hpp`, which is not among the sources.  A record built without
arguments holds three empty strings and the price zero. -/
def GroceryItem.default_ctor : GroceryItem := GroceryItem.ctor [] [] [] (Double.finite 0)

/-- Modifier `upcCode( std::string newUpcCode ) &`; the value is `*this` after the
assignment. -/
def GroceryItem.set_upcCode (g : GroceryItem) (newUpcCode : List Char) : GroceryItem :=
  { g with _upcCode := newUpcCode }

/-- Modifier `brandName( std::string newBrandName ) &`. -/
def GroceryItem.set_brandName (g : GroceryItem) (newBrandName : List Char) : GroceryItem :=
  { g with _brandName := newBrandName }

/-- Modifier `productName( std::string newProductName ) &`. -/
def GroceryItem.set_productName (g : GroceryItem) (newProductName : List Char) : GroceryItem :=
  { g with _productName := newProductName }

/-- Modifier `price( double newPrice ) &`. -/
def GroceryItem.set_price (g : GroceryItem) (newPrice : Double) : GroceryItem :=
  { g with _price := newPrice }

/-! ## Relational operators -/

/-- The result type `std::weak_ordering`. -/
inductive weak_ordering where
  | less
  | equivalent
  | greater
deriving DecidableEq

/-- Three-way comparison of two `std::string`s: character by character, the
shorter string first when one is a prefix of the other.  The result is a
`std::strong_ordering`, here `Ordering`. -/
def string_compare : List Char → List Char → Ordering
  | [], [] => Ordering.eq
  | [], _ :: _ => Ordering.lt
  | _ :: _, [] => Ordering.gt
  | a :: as, b :: bs =>
    if a < b then Ordering.lt
    else if b < a then Ordering.gt
    else string_compare as bs

/-- Implicit conversion of `std::strong_ordering` to `std::weak_ordering`. -/
def to_weak : Ordering → weak_ordering
  | Ordering.lt => weak_ordering.less
  | Ordering.eq => weak_ordering.equivalent
  | Ordering.gt => weak_ordering.greater

/-- The member `GroceryItem::operator<=>`. -/
def GroceryItem.operator_cmp (lhs rhs : GroceryItem) : weak_ordering :=
  let cmp := string_compare lhs._upcCode rhs._upcCode
  if cmp ≠ Ordering.eq then to_weak cmp else
  let cmp := string_compare lhs._productName rhs._productName
  if cmp ≠ Ordering.eq then to_weak cmp else
  let cmp := string_compare lhs._brandName rhs._brandName
  if cmp ≠ Ordering.eq then to_weak cmp else
  if floating_point_is_equal lhs._price rhs._price then weak_ordering.equivalent
  else if Double.lt lhs._price rhs._price then weak_ordering.less
  else weak_ordering.greater

/-- The member `GroceryItem::operator==`. -/
def GroceryItem.operator_eq (lhs rhs : GroceryItem) : Bool :=
  decide (lhs._upcCode = rhs._upcCode) && decide (lhs._productName = rhs._productName)
    && decide (lhs._brandName = rhs._brandName)
    && floating_point_is_equal lhs._price rhs._price

/-! ## Input streams -/

/-- The double quote, the delimiter of `std::quoted`. -/
def delim : Char := Char.ofNat 34

/-- The backslash, the escape character of `std::quoted`. -/
def escape : Char := Char.ofNat 92

/-- The function `std::isspace` in the "C" locale: space, `\t`, `\n`, `\v`,
`\f`, `\r`. -/
def isspace (c : Char) : Bool :=
  c = Char.ofNat 32 || c = Char.ofNat 9 || c = Char.ofNat 10 || c = Char.ofNat 11
    || c = Char.ofNat 12 || c = Char.ofNat 13

/-- A `std::istream`: the characters not yet read and the fail bit.  The eof bit
is not kept: it is set only when the input is exhausted, and every formatted
read of an exhausted input fails. -/
structure istream where
  buf : List Char
  failbit : Bool
deriving DecidableEq

/-- Conversion of a stream to `bool`: `!fail()`. -/
def istream.ok (s : istream) : Bool := !s.failbit

/-- The member `setstate(std::ios::failbit)`. -/
def istream.setstate_failbit (s : istream) : istream := { s with failbit := true }

/-- The manipulator `std::ws`, as run by the sentry of a formatted read. -/
def skipws (b : List Char) : List Char := b.dropWhile isspace

/-- The extractor `stream >> c` for a `char`: skips white space and takes the next
character, whatever it is; fails at the end of the input or on a failed
stream. -/
def char_in (s : istream) : istream × Option Char :=
  if s.failbit then (s, none) else
  match skipws s.buf with
  | [] => ({ buf := [], failbit := true }, none)
  | c :: rest => ({ buf := rest, failbit := false }, some c)

/-- The extractor `stream >> str` for a `std::string`: skips white space and
takes the characters up to the next white space; fails when there is none. -/
def string_in (s : istream) : istream × List Char :=
  if s.failbit then (s, []) else
  let b := skipws s.buf
  let word := b.takeWhile (fun c => !isspace c)
  let rest := b.dropWhile (fun c => !isspace c)
  if word = [] then ({ buf := rest, failbit := true }, []) else ({ buf := rest, failbit := false }, word)

/-- The loop of the `std::quoted` extractor, entered after the opening
delimiter, with `skipws` off: characters are taken up to the first unescaped
delimiter, which is discarded; an escape character is dropped and the character
after it is taken as it is.  Running out of input fails the stream. -/
def quoted_body : List Char → istream × List Char
  | [] => ({ buf := [], failbit := true }, [])
  | c :: rest =>
    if c = escape then
      match rest with
      | [] => ({ buf := [], failbit := true }, [])
      | d :: rest2 => ((quoted_body rest2).1, d :: (quoted_body rest2).2)
    else if c = delim then ({ buf := rest, failbit := false }, [])
    else ((quoted_body rest).1, c :: (quoted_body rest).2)

/-- The extractor `stream >> std::quoted(str)` into an empty string: if the first
character after white space is the delimiter the quoted text is read, otherwise
the character is put back and `stream >> str` is run. -/
def quoted_in (s : istream) : istream × List Char :=
  match char_in s with
  | (s1, none) => (s1, [])
  | (s1, some c) =>
    if c ≠ delim then string_in { buf := c :: s1.buf, failbit := false }
    else quoted_body s1.buf

/-! ### Reading a `double` -/

/-- What the scan of a floating point field has seen so far. -/
structure float_scan where
  mant : Nat
  frac : Nat
  found_mantissa : Bool
  found_dec : Bool
  found_sci : Bool
  exp_neg : Bool
  exp : Nat
  found_exp : Bool
deriving DecidableEq

/-- The scan before the first character. -/
def float_scan.init : float_scan :=
  { mant := 0, frac := 0, found_mantissa := false, found_dec := false, found_sci := false,
    exp_neg := false, exp := 0, found_exp := false }

/-- Value of a decimal digit character. -/
def digit_value (c : Char) : Nat := c.toNat - 48

/-- Stage 2 of `num_get::do_get` for a floating point field, after the optional
sign: digits, at most one decimal point before the exponent, and at most one
exponent mark `e` or `E` after a digit, with its optional sign.  Returns what was
seen and the characters left in the stream. -/
def scan_float : List Char → float_scan → float_scan × List Char
  | [], st => (st, [])
  | c :: rest, st =>
    if c.isDigit then
      if st.found_sci then
        scan_float rest { st with exp := st.exp * 10 + digit_value c, found_exp := true }
      else
        scan_float rest { st with mant := st.mant * 10 + digit_value c,
                                  frac := if st.found_dec then st.frac + 1 else st.frac,
                                  found_mantissa := true }
    else if c = '.' && !st.found_dec && !st.found_sci then
      scan_float rest { st with found_dec := true }
    else if (c = 'e' || c = 'E') && !st.found_sci && st.found_mantissa then
      match rest with
      | [] => ({ st with found_sci := true }, [])
      | d :: rest2 =>
        if d = '+' then scan_float rest2 { st with found_sci := true, exp_neg := false }
        else if d = '-' then scan_float rest2 { st with found_sci := true, exp_neg := true }
        else scan_float (d :: rest2) { st with found_sci := true }
    else (st, c :: rest)

/-- The rational `± mant * 10 ^ e`. -/
def decimal_value (neg : Bool) (mant : Nat) (e : Int) : ℚ :=
  let m : Int := if neg then -(mant : Int) else (mant : Int)
  if 0 ≤ e then mkRat (m * 10 ^ e.toNat) 1 else mkRat m (10 ^ (-e).toNat)

/-- The optional sign in front of a number: whether it is a minus, and the
characters after it. -/
def scan_sign : List Char → Bool × List Char
  | [] => (false, [])
  | c :: rest => if c = '+' then (false, rest) else if c = '-' then (true, rest) else (false, c :: rest)

/-- The extractor `stream >> x` for a `double`: skips white space, scans the
longest field of the shape `[sign] digits [. digits] [e [sign] digits]` and
converts it (stage 3, `strtod` on the whole field) to the `double` nearest to
its decimal value.  The read fails, and stores zero, when the field has no
mantissa digit or has an exponent mark without an exponent digit.  The value is
rounded to a significand of 53 bits; the exponent range of `double` is not
modelled, so no field is out of range: a field beyond the largest `double`,
where the library stores the largest `double` and sets the fail bit, is read
here as its rounded value, a field below the normal range is not rounded to a
subnormal number or to zero, and the field `-0` is read as zero. -/
def double_in (s : istream) : istream × Double :=
  if s.failbit then (s, Double.finite 0) else
  let sg := scan_sign (skipws s.buf)
  let r := scan_float sg.2 float_scan.init
  let st := r.1
  if st.found_mantissa && (!st.found_sci || st.found_exp) then
    ({ buf := r.2, failbit := false },
     Double.finite (binary64 (decimal_value sg.1 st.mant
       ((if st.exp_neg then -(st.exp : Int) else (st.exp : Int)) - (st.frac : Int)))))
  else ({ buf := r.2, failbit := true }, Double.finite 0)

/-! ## Output -/

/-- The characters `std::quoted` writes between the delimiters: the escape
character goes before each delimiter and each escape character. -/
def quoted_escape : List Char → List Char
  | [] => []
  | c :: rest =>
    if c = delim || c = escape then escape :: c :: quoted_escape rest
    else c :: quoted_escape rest

/-- The inserter `stream << std::quoted(str)`. -/
def quoted_out (str : List Char) : List Char := delim :: (quoted_escape str ++ [delim])

/-- Largest `k`, searched upwards from `k` in `fuel` steps, with `d * 10 ^ k ≤ n`. -/
def exp10_up (n d : Nat) : Nat → Nat → Nat
  | 0, k => k
  | fuel + 1, k => if d * 10 ^ (k + 1) ≤ n then exp10_up n d fuel (k + 1) else k

/-- Smallest `k`, searched upwards from `k` in `fuel` steps, with `d ≤ n * 10 ^ k`. -/
def exp10_down (n d : Nat) : Nat → Nat → Nat
  | 0, k => k
  | fuel + 1, k => if d ≤ n * 10 ^ k then k else exp10_down n d fuel (k + 1)

/-- The decimal exponent of the positive rational `n / d`: the integer `e` with
`10 ^ e ≤ n / d < 10 ^ (e + 1)`. -/
def decimal_exponent (n d : Nat) : Int :=
  if d ≤ n then (exp10_up n d n 0 : Int) else -(exp10_down n d d 1 : Int)

/-- The six significant decimal digits of the positive rational `n / d`, as a
number between `100000` and `999999`, and the decimal exponent `X` of the rounded
value. -/
def six_digits (n d : Nat) : Nat × Int :=
  let e0 := decimal_exponent n d
  let m := if e0 ≤ 5 then round_half_even (n * 10 ^ (5 - e0).toNat) d
           else round_half_even n (d * 10 ^ (e0 - 5).toNat)
  if m = 1000000 then (100000, e0 + 1) else (m, e0)

/-- Removal of trailing zeros. -/
def strip_zeros (l : List Char) : List Char := (l.reverse.dropWhile (fun c => c = '0')).reverse

/-- Conversion `%g` with precision 6 of the positive rational `n / d`: fixed
notation when the decimal exponent `X` satisfies `-4 ≤ X < 6`, scientific notation
otherwise; trailing zeros and a trailing decimal point are removed. -/
def format_g (n d : Nat) : List Char :=
  let m := (six_digits n d).1
  let x := (six_digits n d).2
  let ds := Nat.toDigits 10 m
  if -4 ≤ x ∧ x < 6 then
    if 0 ≤ x then
      let fp := strip_zeros (ds.drop (x.toNat + 1))
      if fp = [] then ds.take (x.toNat + 1) else ds.take (x.toNat + 1) ++ '.' :: fp
    else
      '0' :: '.' :: (List.replicate ((-x).toNat - 1) '0' ++ strip_zeros ds)
  else
    let fp := strip_zeros (ds.drop 1)
    let ex := Nat.toDigits 10 x.natAbs
    (if fp = [] then ds.take 1 else ds.take 1 ++ '.' :: fp)
      ++ 'e' :: (if x < 0 then '-' else '+') :: (if x.natAbs < 10 then '0' :: ex else ex)

/-- The inserter `stream << x` for a `double` with the default format flags:
the conversion `%g` with precision 6.  Zero and NaN have no sign in `Double`,
so they are written as `0` and `nan`; the library writes `-0` for the negative
zero and `-nan` for a NaN with the sign bit set. -/
def double_out : Double → List Char
  | Double.nan => ['n', 'a', 'n']
  | Double.posInf => ['i', 'n', 'f']
  | Double.negInf => ['-', 'i', 'n', 'f']
  | Double.finite q =>
    if q.num = 0 then ['0']
    else if q.num < 0 then '-' :: format_g q.num.natAbs q.den
    else format_g q.num.natAbs q.den

/-! ## Extraction and insertion operators -/

/-- The first sub-read of `operator>>`: `stream >> std::quoted(upcCode)`. -/
def read_upcCode (stream : istream) : istream × List Char := quoted_in stream

/-- The second sub-read: `>> delimiter >> std::quoted(brandName)`. -/
def read_brandName (stream : istream) : istream × List Char :=
  quoted_in (char_in (read_upcCode stream).1).1

/-- The third sub-read: `>> delimiter >> std::quoted(productName)`. -/
def read_productName (stream : istream) : istream × List Char :=
  quoted_in (char_in (read_brandName stream).1).1

/-- The fourth sub-read: `>> delimiter >> price`. -/
def read_price (stream : istream) : istream × Double :=
  double_in (char_in (read_productName stream).1).1

/-- The function `operator>>( std::istream &, GroceryItem & )`: the stream and the
target after the call. -/
def operator_extract (stream : istream) (groceryItem : GroceryItem) : istream × GroceryItem :=
  if (read_price stream).1.ok then
    ((read_price stream).1,
     GroceryItem.ctor (read_productName stream).2 (read_brandName stream).2
       (read_upcCode stream).2 (read_price stream).2)
  else ((read_price stream).1.setstate_failbit, groceryItem)

/-- The function `operator<<( std::ostream &, const GroceryItem & )`: the
characters of the stream after the call. -/
def operator_insert (stream : List Char) (groceryItem : GroceryItem) : List Char :=
  stream ++ quoted_out groceryItem._upcCode ++ [',', ' '] ++ quoted_out groceryItem._brandName
    ++ [',', ' '] ++ quoted_out groceryItem._productName ++ [',', ' ']
    ++ double_out groceryItem._price

/-! ## The driver -/

/-- The `while (true)` loop of `main`: a new record is built, `std::cin >> *item`
is run, the loop is left at the first failure, and otherwise the record is pushed
to the back of the vector.  The result is the vector when the loop is left, and
`none` when `fuel` iterations were not enough to leave it. -/
def main_read : Nat → istream → List GroceryItem → Option (List GroceryItem)
  | 0, _, _ => none
  | fuel + 1, cin, groceryItems =>
    if !(operator_extract cin GroceryItem.default_ctor).1.ok then some groceryItems
    else main_read fuel (operator_extract cin GroceryItem.default_ctor).1
      (groceryItems ++ [(operator_extract cin GroceryItem.default_ctor).2])

/-- The `for` loop of `main` from `rbegin()` to `rend()`: the `i` first elements
of the vector are written from the last of them down to the first, each followed
by `std::endl`. -/
def main_write (groceryItems : List GroceryItem) : Nat → List Char → List Char
  | 0, cout => cout
  | i + 1, cout =>
    match groceryItems.get? i with
    | some item => main_write groceryItems i (operator_insert cout item ++ [Char.ofNat 10])
    | none => main_write groceryItems i cout

/-- The function `main`: what is written to `std::cout` when `input` is what
`std::cin` holds.  Every pass of the reading loop that does not leave it
consumes a character, so one pass more than the length of the input is enough
fuel. -/
def main (input : List Char) : Option (List Char) :=
  match main_read (input.length + 1) { buf := input, failbit := false } [] with
  | none => none
  | some groceryItems => some (main_write groceryItems groceryItems.length [])

/-! ## Definitions that follow the words of the specification -/

/-- The tolerance rule of the specification on two real numbers:
`|a - b| < 1e-4` or `|a - b| < 1e-8 * max(|a|, |b|)`. -/
def tolerance_rule (a b : ℚ) : Prop :=
  |a - b| < 1 / 10000 ∨ |a - b| < 1 / 100000000 * max |a| |b|

/-- The tolerance rule on two prices: the rule on real numbers when both prices
are finite; with an infinite or NaN price no comparison of the rule holds. -/
def prices_close : Double → Double → Prop
  | Double.finite a, Double.finite b => tolerance_rule a b
  | _, _ => False

/-- The tolerance rule in the arithmetic of the machine: with `d` the difference
`a - b` rounded to `double`, `|d| < 1e-4L` or `|d| < 1e-8L * max(|a|, |b|)`, where
`1e-4L` and `1e-8L` are the `long double` values of the literals and the product
is rounded to `long double`. -/
def machine_tolerance_rule (a b : ℚ) : Prop :=
  |binary64 (a - b)| < long_double (1 / 10000)
    ∨ |binary64 (a - b)| < long_double (long_double (1 / 100000000) * max |a| |b|)

/-- The tolerance rule of the machine on two prices: the rule above when both
prices are finite; with an infinite or NaN price no comparison of the rule
holds. -/
def machine_prices_close : Double → Double → Prop
  | Double.finite a, Double.finite b => machine_tolerance_rule a b
  | _, _ => False

instance tolerance_rule_decidable (a b : ℚ) : Decidable (tolerance_rule a b) := by
  unfold tolerance_rule
  exact inferInstance

instance prices_close_decidable : (a b : Double) → Decidable (prices_close a b)
  | Double.finite a, Double.finite b => tolerance_rule_decidable a b
  | Double.finite _, Double.posInf => isFalse (fun h => h)
  | Double.finite _, Double.negInf => isFalse (fun h => h)
  | Double.finite _, Double.nan => isFalse (fun h => h)
  | Double.posInf, _ => isFalse (fun h => h)
  | Double.negInf, _ => isFalse (fun h => h)
  | Double.nan, _ => isFalse (fun h => h)

instance machine_tolerance_rule_decidable (a b : ℚ) : Decidable (machine_tolerance_rule a b) := by
  unfold machine_tolerance_rule
  exact inferInstance

instance machine_prices_close_decidable :
    (a b : Double) → Decidable (machine_prices_close a b)
  | Double.finite a, Double.finite b => machine_tolerance_rule_decidable a b
  | Double.finite _, Double.posInf => isFalse (fun h => h)
  | Double.finite _, Double.negInf => isFalse (fun h => h)
  | Double.finite _, Double.nan => isFalse (fun h => h)
  | Double.posInf, _ => isFalse (fun h => h)
  | Double.negInf, _ => isFalse (fun h => h)
  | Double.nan, _ => isFalse (fun h => h)

/-- Lexicographic comparison of two texts, from the lexicographic order on
lists of characters. -/
def lexicographic (a b : List Char) : weak_ordering :=
  if a < b then weak_ordering.less
  else if a = b then weak_ordering.equivalent
  else weak_ordering.greater

/-- The ordering as the specification describes it: the UPC codes decide when
they differ, otherwise the product names when they differ, otherwise the brand
names when they differ, otherwise the prices: equivalent within the tolerance
rule, less when the left price is smaller, greater when not. -/
def spec_ordering (x y : GroceryItem) : weak_ordering :=
  if x._upcCode ≠ y._upcCode then lexicographic x._upcCode y._upcCode
  else if x._productName ≠ y._productName then lexicographic x._productName y._productName
  else if x._brandName ≠ y._brandName then lexicographic x._brandName y._brandName
  else if prices_close x._price y._price then weak_ordering.equivalent
  else if Double.lt x._price y._price then weak_ordering.less
  else weak_ordering.greater

/-- The ordering of the specification with the tolerance rule in the arithmetic
of the machine in its last step. -/
def machine_ordering (x y : GroceryItem) : weak_ordering :=
  if x._upcCode ≠ y._upcCode then lexicographic x._upcCode y._upcCode
  else if x._productName ≠ y._productName then lexicographic x._productName y._productName
  else if x._brandName ≠ y._brandName then lexicographic x._brandName y._brandName
  else if machine_prices_close x._price y._price then weak_ordering.equivalent
  else if Double.lt x._price y._price then weak_ordering.less
  else weak_ordering.greater

/-- Quoting as the specification describes it: the text between two double
quotes, with a backslash before every embedded double quote and every embedded
backslash, and every other character as it is. -/
def spec_quote (str : List Char) : List Char :=
  [Char.ofNat 34]
    ++ str.flatMap (fun c => if c = Char.ofNat 34 ∨ c = Char.ofNat 92 then [Char.ofNat 92, c] else [c])
    ++ [Char.ofNat 34]

/-- The output format of the specification: quoted UPC code, comma and space,
quoted brand name, comma and space, quoted product name, comma and space, and
the decimal text of the price. -/
def spec_format (r : GroceryItem) : List Char :=
  spec_quote r._upcCode ++ [',', ' '] ++ spec_quote r._brandName ++ [',', ' ']
    ++ spec_quote r._productName ++ [',', ' '] ++ double_out r._price

/-! ## Shapes of input text used in the statements -/

/-- The text of a record whose three string fields are quoted, with the
characters `c1`, `c2`, `c3` and a space after them, and with `rest` after the
third space. -/
def record_text (u b p : List Char) (c1 c2 c3 : Char) (rest : List Char) : List Char :=
  quoted_out u ++ c1 :: ' ' :: (quoted_out b ++ c2 :: ' ' :: (quoted_out p ++ c3 :: ' ' :: rest))

/-- A word: a text that is not empty, has no white space and does not start with
a double quote. -/
def is_word : List Char → Bool
  | [] => false
  | c :: w => !decide (c = delim) && (c :: w).all (fun x => !isspace x)

/-- The text of a record whose three string fields are the unquoted words `w1`,
`w2`, `w3`, each followed by a space and one more character, with `rest` after
the third of these characters. -/
def unquoted_text (w1 w2 w3 : List Char) (c1 c2 c3 : Char) (rest : List Char) : List Char :=
  w1 ++ ' ' :: c1 :: (w2 ++ ' ' :: c2 :: (w3 ++ ' ' :: c3 :: rest))

/-- The unread input starts, after white space, with a double quote that no
other double quote follows. -/
def unclosed_quote (b : List Char) : Bool :=
  match skipws b with
  | [] => false
  | c :: rest => decide (c = delim) && decide (delim ∉ rest)

/-- White space only. -/
def is_white (ws : List Char) : Bool := ws.all isspace

/-- The text of a record whose three string fields are quoted and whose
delimiters are commas, with the runs of characters `ws0` to `ws6` before the four
fields and before the three commas, and with `rest` as the price field and what
follows it. -/
def spaced_text (ws0 ws1 ws2 ws3 ws4 ws5 ws6 u b p rest : List Char) : List Char :=
  ws0 ++ (quoted_out u ++ (ws1 ++ ',' :: (ws2 ++ (quoted_out b ++ (ws3 ++ ',' :: (ws4 ++
    (quoted_out p ++ (ws5 ++ ',' :: (ws6 ++ rest)))))))))

/-- A text without its optional sign. -/
def after_sign : List Char → List Char
  | [] => []
  | c :: rest => if c = '+' ∨ c = '-' then rest else c :: rest

/-- The text begins with a decimal number in the lexical form of the
specification: an optional sign and then digits. -/
def begins_with_digits (b : List Char) : Bool :=
  match after_sign b with
  | [] => false
  | c :: _ => c.isDigit

/-- The text begins, after an optional sign, with a digit or with a decimal point
and a digit. -/
def begins_with_number (b : List Char) : Bool :=
  match after_sign b with
  | [] => false
  | [c] => c.isDigit
  | c :: d :: _ => c.isDigit || (decide (c = '.') && d.isDigit)

/-- The unread input at the price field: what is left after the three string
fields and the three delimiter characters. -/
def price_field (stream : istream) : List Char :=
  skipws (char_in (read_productName stream).1).1.buf

/-- The run of the driver as the specification describes it: records are parsed
from the input one after the other, each into a new record, up to the first
parse that fails; `reads s items` holds when `items` are the records parsed from
the stream `s`, in arrival order. -/
inductive reads : istream → List GroceryItem → Prop where
  | stop (s : istream) :
      (operator_extract s GroceryItem.default_ctor).1.failbit = true → reads s []
  | more (s : istream) (items : List GroceryItem) :
      (operator_extract s GroceryItem.default_ctor).1.failbit = false →
      reads (operator_extract s GroceryItem.default_ctor).1 items →
      reads s ((operator_extract s GroceryItem.default_ctor).2 :: items)

/-- The output of the driver as the specification describes it: what
`operator<<` writes for each record, in reverse arrival order, one per line. -/
def spec_output (items : List GroceryItem) : List Char :=
  items.reverse.flatMap (fun g => operator_insert [] g ++ [Char.ofNat 10])

/-! ## Lemmas on rounding -/

theorem exp2_up_spec (n d : Nat) (hd : 0 < d) (fuel k : Nat) (hk : d * 2 ^ k ≤ n)
    (hf : n ≤ k + fuel) :
    d * 2 ^ exp2_up n d fuel k ≤ n ∧ n < d * 2 ^ (exp2_up n d fuel k + 1) := by
  induction fuel generalizing k with
  | zero =>
    simp only [exp2_up]
    refine ⟨hk, ?_⟩
    have h1 : k < 2 ^ (k + 1) := lt_trans (Nat.lt_two_pow k) (Nat.pow_lt_pow_right (by decide) (Nat.lt_succ_self k))
    calc n ≤ k := by omega
      _ < 2 ^ (k + 1) := h1
      _ ≤ d * 2 ^ (k + 1) := Nat.le_mul_of_pos_left _ hd
  | succ fuel ih =>
    simp only [exp2_up]
    by_cases h : d * 2 ^ (k + 1) ≤ n
    · rw [if_pos h]
      exact ih (k + 1) h (by omega)
    · rw [if_neg h]
      exact ⟨hk, Nat.lt_of_not_le h⟩

theorem exp2_down_spec (n d : Nat) (hn : 0 < n) (fuel k : Nat) (hk : 1 ≤ k)
    (hp : n * 2 ^ (k - 1) < d) (hf : d ≤ k + fuel) :
    1 ≤ exp2_down n d fuel k ∧ d ≤ n * 2 ^ exp2_down n d fuel k
      ∧ n * 2 ^ (exp2_down n d fuel k - 1) < d := by
  induction fuel generalizing k with
  | zero =>
    simp only [exp2_down]
    refine ⟨hk, ?_, hp⟩
    calc d ≤ k := by omega
      _ ≤ 2 ^ k := le_of_lt (Nat.lt_two_pow k)
      _ ≤ n * 2 ^ k := Nat.le_mul_of_pos_left _ hn
  | succ fuel ih =>
    simp only [exp2_down]
    by_cases h : d ≤ n * 2 ^ k
    · rw [if_pos h]
      exact ⟨hk, h, hp⟩
    · rw [if_neg h]
      exact ih (k + 1) (by omega) (by simpa using Nat.lt_of_not_le h) (by omega)

theorem binary_exponent_spec (n d : Nat) (hn : 0 < n) (hd : 0 < d) :
    (2 : ℚ) ^ binary_exponent n d ≤ (n : ℚ) / d
    ∧ (n : ℚ) / d < (2 : ℚ) ^ (binary_exponent n d + 1) := by
  have hdq : (0 : ℚ) < d := by exact_mod_cast hd
  unfold binary_exponent
  by_cases h : d ≤ n
  · rw [if_pos h]
    obtain ⟨h1, h2⟩ := exp2_up_spec n d hd n 0 (by simpa using h) (by omega)
    have e1 : ((exp2_up n d n 0 : Nat) : Int) + 1 = ((exp2_up n d n 0 + 1 : Nat) : Int) := by
      push_cast; ring
    rw [e1, zpow_natCast, zpow_natCast, le_div_iff₀ hdq, div_lt_iff₀ hdq]
    constructor
    · rw [mul_comm]; exact_mod_cast h1
    · rw [mul_comm]; exact_mod_cast h2
  · rw [if_neg h]
    obtain ⟨h0, h1, h2⟩ := exp2_down_spec n d hn d 1 (le_refl 1)
      (by simpa using Nat.lt_of_not_le h) (by omega)
    have e1 : -((exp2_down n d d 1 : Nat) : Int) + 1 = -((exp2_down n d d 1 - 1 : Nat) : Int) := by
      rw [Nat.cast_sub h0]; push_cast; ring
    have hp : ∀ k : Nat, (0 : ℚ) < (2 : ℚ) ^ k := fun k => pow_pos (by norm_num) k
    rw [e1, zpow_neg, zpow_neg, zpow_natCast, zpow_natCast]
    have q1 : (d : ℚ) ≤ (n : ℚ) * 2 ^ exp2_down n d d 1 := by exact_mod_cast h1
    have q2 : (n : ℚ) * 2 ^ (exp2_down n d d 1 - 1) < (d : ℚ) := by exact_mod_cast h2
    constructor
    · rw [le_div_iff₀ hdq, inv_mul_le_iff₀ (hp _), mul_comm]
      exact q1
    · rw [div_lt_iff₀ hdq, ← div_eq_inv_mul, lt_div_iff₀ (hp _)]
      exact q2

theorem div_le_round_half_even (n d : Nat) : n / d ≤ round_half_even n d := by
  unfold round_half_even
  split
  · exact le_refl _
  · split
    · exact Nat.le_succ _
    · split
      · exact le_refl _
      · exact Nat.le_succ _

theorem round_half_even_le_succ (n d : Nat) : round_half_even n d ≤ n / d + 1 := by
  unfold round_half_even
  split
  · exact Nat.le_succ _
  · split
    · exact le_refl _
    · split
      · exact Nat.le_succ _
      · exact le_refl _

theorem round_half_even_mono (n1 d1 n2 d2 : Nat) (h1 : 0 < d1) (h2 : 0 < d2)
    (h : n1 * d2 ≤ n2 * d1) : round_half_even n1 d1 ≤ round_half_even n2 d2 := by
  have e1 := Nat.div_add_mod n1 d1
  have e2 := Nat.div_add_mod n2 d2
  have r1 := Nat.mod_lt n1 h1
  have r2 := Nat.mod_lt n2 h2
  have hf : n1 / d1 ≤ n2 / d2 := by
    rw [Nat.le_div_iff_mul_le h2]
    have : n1 / d1 * d2 * d1 ≤ n2 * d1 := by
      calc n1 / d1 * d2 * d1 = (d1 * (n1 / d1)) * d2 := by ring
        _ ≤ n1 * d2 := Nat.mul_le_mul_right _ (by omega)
        _ ≤ n2 * d1 := h
    exact Nat.le_of_mul_le_mul_right this h1
  rcases Nat.lt_or_ge (n1 / d1) (n2 / d2) with hlt | hge
  · calc round_half_even n1 d1 ≤ n1 / d1 + 1 := round_half_even_le_succ _ _
      _ ≤ n2 / d2 := hlt
      _ ≤ round_half_even n2 d2 := div_le_round_half_even _ _
  · have hfe : n1 / d1 = n2 / d2 := le_antisymm hf hge
    have hr : n1 % d1 * d2 ≤ n2 % d2 * d1 := by
      have h3 : (d1 * (n1 / d1) + n1 % d1) * d2 ≤ (d2 * (n2 / d2) + n2 % d2) * d1 := by
        rw [e1, e2]; exact h
      rw [hfe] at h3
      have h4 : d1 * (n2 / d2) * d2 = d2 * (n2 / d2) * d1 := by ring
      rw [Nat.add_mul, Nat.add_mul, h4] at h3
      exact Nat.le_of_add_le_add_left h3
    unfold round_half_even
    rw [hfe]
    by_cases c1 : 2 * (n1 % d1) < d1
    · rw [if_pos c1]
      exact div_le_round_half_even n2 d2
    · rw [if_neg c1]
      have k1 : d1 * d2 ≤ 2 * (n2 % d2) * d1 := by
        calc d1 * d2 ≤ 2 * (n1 % d1) * d2 := Nat.mul_le_mul_right _ (Nat.le_of_not_lt c1)
          _ = 2 * (n1 % d1 * d2) := by ring
          _ ≤ 2 * (n2 % d2 * d1) := Nat.mul_le_mul_left _ hr
          _ = 2 * (n2 % d2) * d1 := by ring
      have k2 : d2 ≤ 2 * (n2 % d2) := by
        rw [Nat.mul_comm d1 d2] at k1
        exact Nat.le_of_mul_le_mul_right k1 h1
      have c2 : ¬ 2 * (n2 % d2) < d2 := Nat.not_lt.mpr k2
      rw [if_neg c2]
      by_cases c3 : d1 < 2 * (n1 % d1)
      · rw [if_pos c3]
        have k3 : d1 * d2 < 2 * (n2 % d2) * d1 := by
          calc d1 * d2 < 2 * (n1 % d1) * d2 := Nat.mul_lt_mul_of_pos_right c3 h2
            _ = 2 * (n1 % d1 * d2) := by ring
            _ ≤ 2 * (n2 % d2 * d1) := Nat.mul_le_mul_left _ hr
            _ = 2 * (n2 % d2) * d1 := by ring
        have k4 : d2 < 2 * (n2 % d2) := by
          rw [Nat.mul_comm d1 d2] at k3
          exact Nat.lt_of_mul_lt_mul_right k3
        rw [if_pos k4]
      · rw [if_neg c3]
        by_cases c4 : n2 / d2 % 2 = 0
        · rw [if_pos c4]
          split
          · exact Nat.le_succ _
          · exact le_refl _
        · rw [if_neg c4]
          split
          · exact le_refl _
          · exact le_refl _

theorem round_half_even_one (a : Nat) : round_half_even a 1 = a := by
  simp [round_half_even, Nat.mod_one]

theorem round_pos_spec (p n d : Nat) (hd : 0 < d) :
    ∃ N D : Nat, 0 < D
      ∧ round_pos p n d
          = (round_half_even N D : ℚ) * (2 : ℚ) ^ (binary_exponent n d - (p : Int))
      ∧ (N : ℚ) / D = (n : ℚ) / d * (2 : ℚ) ^ ((p : Int) - binary_exponent n d) := by
  have hdq : (d : ℚ) ≠ 0 := by exact_mod_cast (Nat.pos_iff_ne_zero.mp hd)
  have h2 : ∀ k : Nat, ((2 : ℚ) ^ k) ≠ 0 := fun k => pow_ne_zero k (by norm_num)
  unfold round_pos
  by_cases h : binary_exponent n d ≤ (p : Int)
  · rw [if_pos h]
    obtain ⟨k, hk⟩ : ∃ k : Nat, (k : Int) = (p : Int) - binary_exponent n d :=
      ⟨_, Int.toNat_of_nonneg (by omega)⟩
    have hk1 : ((p : Int) - binary_exponent n d).toNat = k := by omega
    have hk2 : binary_exponent n d - (p : Int) = -(k : Int) := by omega
    rw [hk1, hk2, ← hk]
    refine ⟨n * 2 ^ k, d, hd, ?_, ?_⟩
    · rw [Rat.mkRat_eq_div, zpow_neg, zpow_natCast]
      push_cast
      rw [div_eq_mul_inv]
    · rw [zpow_natCast]
      push_cast
      field_simp
  · rw [if_neg h]
    obtain ⟨k, hk⟩ : ∃ k : Nat, (k : Int) = binary_exponent n d - (p : Int) :=
      ⟨_, Int.toNat_of_nonneg (by omega)⟩
    have hk1 : (binary_exponent n d - (p : Int)).toNat = k := by omega
    have hk2 : (p : Int) - binary_exponent n d = -(k : Int) := by omega
    rw [hk1, hk2, ← hk]
    refine ⟨n, d * 2 ^ k, Nat.mul_pos hd (pow_pos (by decide) k), ?_, ?_⟩
    · rw [Rat.mkRat_eq_div, zpow_natCast]
      push_cast
      simp
    · rw [zpow_neg, zpow_natCast]
      push_cast
      field_simp

theorem two_zpow_pos (e : Int) : (0 : ℚ) < (2 : ℚ) ^ e := zpow_pos (by norm_num) e

theorem round_pos_bounds (p n d : Nat) (hn : 0 < n) (hd : 0 < d) :
    (2 : ℚ) ^ binary_exponent n d ≤ round_pos p n d
    ∧ round_pos p n d ≤ (2 : ℚ) ^ (binary_exponent n d + 1) := by
  obtain ⟨N, D, hD, hv, hs⟩ := round_pos_spec p n d hd
  obtain ⟨b1, b2⟩ := binary_exponent_spec n d hn hd
  have hDq : (0 : ℚ) < D := by exact_mod_cast hD
  have hc := two_zpow_pos ((p : Int) - binary_exponent n d)
  have s1 : (2 : ℚ) ^ (p : Int) ≤ (N : ℚ) / D := by
    rw [hs]
    calc (2 : ℚ) ^ (p : Int)
        = (2 : ℚ) ^ binary_exponent n d * (2 : ℚ) ^ ((p : Int) - binary_exponent n d) := by
          rw [← zpow_add₀ (by norm_num : (2 : ℚ) ≠ 0)]; congr 1; ring
      _ ≤ (n : ℚ) / d * (2 : ℚ) ^ ((p : Int) - binary_exponent n d) :=
          mul_le_mul_of_nonneg_right b1 (le_of_lt hc)
  have s2 : (N : ℚ) / D ≤ (2 : ℚ) ^ ((p : Int) + 1) := by
    rw [hs]
    calc (n : ℚ) / d * (2 : ℚ) ^ ((p : Int) - binary_exponent n d)
        ≤ (2 : ℚ) ^ (binary_exponent n d + 1) * (2 : ℚ) ^ ((p : Int) - binary_exponent n d) :=
          mul_le_mul_of_nonneg_right (le_of_lt b2) (le_of_lt hc)
      _ = (2 : ℚ) ^ ((p : Int) + 1) := by
          rw [← zpow_add₀ (by norm_num : (2 : ℚ) ≠ 0)]; congr 1; ring
  have m1 : 2 ^ p ≤ round_half_even N D := by
    have := round_half_even_mono (2 ^ p) 1 N D Nat.one_pos hD (by
      rw [zpow_natCast, le_div_iff₀ hDq] at s1
      have : ((2 ^ p * D : Nat) : ℚ) ≤ ((N * 1 : Nat) : ℚ) := by push_cast; simpa using s1
      exact_mod_cast this)
    rwa [round_half_even_one] at this
  have m2 : round_half_even N D ≤ 2 ^ (p + 1) := by
    have := round_half_even_mono N D (2 ^ (p + 1)) 1 hD Nat.one_pos (by
      have e : ((p : Int) + 1) = ((p + 1 : Nat) : Int) := by push_cast; ring
      rw [e, zpow_natCast, div_le_iff₀ hDq] at s2
      have : ((N * 1 : Nat) : ℚ) ≤ ((2 ^ (p + 1) * D : Nat) : ℚ) := by push_cast; simpa using s2
      exact_mod_cast this)
    rwa [round_half_even_one] at this
  have hc2 := two_zpow_pos (binary_exponent n d - (p : Int))
  rw [hv]
  constructor
  · calc (2 : ℚ) ^ binary_exponent n d
        = (2 : ℚ) ^ (p : Int) * (2 : ℚ) ^ (binary_exponent n d - (p : Int)) := by
          rw [← zpow_add₀ (by norm_num : (2 : ℚ) ≠ 0)]; congr 1; ring
      _ ≤ (round_half_even N D : ℚ) * (2 : ℚ) ^ (binary_exponent n d - (p : Int)) := by
          apply mul_le_mul_of_nonneg_right _ (le_of_lt hc2)
          rw [zpow_natCast]; exact_mod_cast m1
  · calc (round_half_even N D : ℚ) * (2 : ℚ) ^ (binary_exponent n d - (p : Int))
        ≤ (2 : ℚ) ^ ((p : Int) + 1) * (2 : ℚ) ^ (binary_exponent n d - (p : Int)) := by
          apply mul_le_mul_of_nonneg_right _ (le_of_lt hc2)
          have e : ((p : Int) + 1) = ((p + 1 : Nat) : Int) := by push_cast; ring
          rw [e, zpow_natCast]; exact_mod_cast m2
      _ = (2 : ℚ) ^ (binary_exponent n d + 1) := by
          rw [← zpow_add₀ (by norm_num : (2 : ℚ) ≠ 0)]; congr 1; ring

theorem round_pos_mono (p n1 d1 n2 d2 : Nat) (hn1 : 0 < n1) (hd1 : 0 < d1) (hn2 : 0 < n2)
    (hd2 : 0 < d2) (h : (n1 : ℚ) / d1 ≤ (n2 : ℚ) / d2) :
    round_pos p n1 d1 ≤ round_pos p n2 d2 := by
  obtain ⟨a1, a2⟩ := binary_exponent_spec n1 d1 hn1 hd1
  obtain ⟨b1, b2⟩ := binary_exponent_spec n2 d2 hn2 hd2
  have he : binary_exponent n1 d1 ≤ binary_exponent n2 d2 := by
    have : (2 : ℚ) ^ binary_exponent n1 d1 < (2 : ℚ) ^ (binary_exponent n2 d2 + 1) :=
      lt_of_le_of_lt (le_trans a1 h) b2
    have := (zpow_lt_zpow_iff_right₀ (by norm_num : (1 : ℚ) < 2)).mp this
    omega
  rcases lt_or_eq_of_le he with hlt | heq
  · calc round_pos p n1 d1 ≤ (2 : ℚ) ^ (binary_exponent n1 d1 + 1) :=
          (round_pos_bounds p n1 d1 hn1 hd1).2
      _ ≤ (2 : ℚ) ^ binary_exponent n2 d2 :=
          (zpow_le_zpow_iff_right₀ (by norm_num : (1 : ℚ) < 2)).mpr (by omega)
      _ ≤ round_pos p n2 d2 := (round_pos_bounds p n2 d2 hn2 hd2).1
  · obtain ⟨N1, D1, hD1, hv1, hs1⟩ := round_pos_spec p n1 d1 hd1
    obtain ⟨N2, D2, hD2, hv2, hs2⟩ := round_pos_spec p n2 d2 hd2
    have hD1q : (0 : ℚ) < D1 := by exact_mod_cast hD1
    have hD2q : (0 : ℚ) < D2 := by exact_mod_cast hD2
    have hs : (N1 : ℚ) / D1 ≤ (N2 : ℚ) / D2 := by
      rw [hs1, hs2, heq]
      exact mul_le_mul_of_nonneg_right h (le_of_lt (two_zpow_pos _))
    have hm : round_half_even N1 D1 ≤ round_half_even N2 D2 := by
      apply round_half_even_mono N1 D1 N2 D2 hD1 hD2
      rw [div_le_div_iff₀ hD1q hD2q] at hs
      exact_mod_cast hs
    rw [hv1, hv2, heq]
    apply mul_le_mul_of_nonneg_right _ (le_of_lt (two_zpow_pos _))
    exact_mod_cast hm

theorem round_pos_nonneg (p n d : Nat) : 0 ≤ round_pos p n d := by
  unfold round_pos
  split
  · rw [Rat.mkRat_eq_div]
    positivity
  · rw [Rat.mkRat_eq_div]
    positivity

theorem round_binary_zero (p : Nat) : round_binary p 0 = 0 := by
  simp [round_binary]

theorem round_binary_neg (p : Nat) (q : ℚ) : round_binary p (-q) = -round_binary p q := by
  unfold round_binary
  rw [Rat.neg_num, Rat.neg_den, Int.natAbs_neg]
  by_cases h0 : q.num = 0
  · simp [h0]
  · rcases lt_or_gt_of_ne h0 with h | h
    · have h1 : ¬ -q.num < 0 := by omega
      have h2 : ¬ -q.num = 0 := by omega
      simp [h0, h, h1, h2]
    · have h1 : -q.num < 0 := by omega
      have h2 : ¬ -q.num = 0 := by omega
      have h3 : ¬ q.num < 0 := by omega
      simp [h0, h1, h2, h3]

theorem round_binary_pos_eq (p : Nat) (q : ℚ) (h : 0 < q) :
    round_binary p q = round_pos p q.num.natAbs q.den := by
  have hn : 0 < q.num := Rat.num_pos.mpr h
  unfold round_binary
  rw [if_neg (ne_of_gt hn), if_neg (not_lt.mpr (le_of_lt hn))]

theorem round_binary_nonneg (p : Nat) (q : ℚ) (h : 0 ≤ q) : 0 ≤ round_binary p q := by
  rcases lt_or_eq_of_le h with h | h
  · rw [round_binary_pos_eq p q h]; exact round_pos_nonneg _ _ _
  · rw [← h, round_binary_zero]

theorem natAbs_num_div_den (x : ℚ) (hx : 0 < x) : ((x.num.natAbs : ℚ)) / x.den = x := by
  have nx : 0 < x.num := Rat.num_pos.mpr hx
  have h1 : (x.num.natAbs : Int) = x.num := Int.natAbs_of_nonneg (le_of_lt nx)
  have h2 : ((x.num.natAbs : Nat) : ℚ) = ((x.num.natAbs : Int) : ℚ) := (Int.cast_natCast _).symm
  rw [h2, h1]
  exact Rat.num_div_den x

theorem round_binary_mono_pos (p : Nat) (x y : ℚ) (hx : 0 < x) (h : x ≤ y) :
    round_binary p x ≤ round_binary p y := by
  have hy : 0 < y := lt_of_lt_of_le hx h
  have nx : 0 < x.num := Rat.num_pos.mpr hx
  have ny : 0 < y.num := Rat.num_pos.mpr hy
  rw [round_binary_pos_eq p x hx, round_binary_pos_eq p y hy]
  apply round_pos_mono p _ _ _ _ (Int.natAbs_pos.mpr (ne_of_gt nx)) x.den_pos
    (Int.natAbs_pos.mpr (ne_of_gt ny)) y.den_pos
  rw [natAbs_num_div_den x hx, natAbs_num_div_den y hy]
  exact h

theorem round_binary_mono (p : Nat) (x y : ℚ) (h : x ≤ y) :
    round_binary p x ≤ round_binary p y := by
  rcases lt_trichotomy 0 x with hx | hx | hx
  · exact round_binary_mono_pos p x y hx h
  · rw [← hx, round_binary_zero]
    exact round_binary_nonneg p y (hx ▸ h)
  · rcases le_or_lt 0 y with hy | hy
    · have h1 := round_binary_nonneg p (-x) (by linarith)
      rw [round_binary_neg] at h1
      have h2 := round_binary_nonneg p y hy
      linarith
    · have h1 := round_binary_mono_pos p (-y) (-x) (by linarith) (by linarith)
      rw [round_binary_neg, round_binary_neg] at h1
      linarith

theorem round_binary_abs (p : Nat) (q : ℚ) : |round_binary p q| = round_binary p |q| := by
  rcases le_or_lt 0 q with h | h
  · rw [abs_of_nonneg h, abs_of_nonneg (round_binary_nonneg p q h)]
  · have h2 := round_binary_nonneg p (-q) (by linarith)
    rw [abs_of_neg h]
    rw [round_binary_neg] at h2 ⊢
    exact abs_of_nonpos (by linarith)

theorem binary64_eq_round_binary (q : ℚ) : binary64 q = round_binary 52 q := by
  unfold binary64 round_binary round_pos
  simp only [Nat.cast_ofNat]
  by_cases h0 : q.num = 0
  · simp [h0]
  · by_cases h1 : q.num < 0
    · by_cases hc : binary_exponent q.num.natAbs q.den ≤ 52
      · simp only [h0, h1, hc, if_true, if_false, Rat.neg_mkRat]
      · simp only [h0, h1, hc, if_true, if_false, Rat.neg_mkRat]
        congr 1
        push_cast
        ring
    · by_cases hc : binary_exponent q.num.natAbs q.den ≤ 52
      · simp only [h0, h1, hc, if_true, if_false]
      · simp only [h0, h1, hc, if_true, if_false]
        congr 1
        push_cast
        ring

/-! ## Lemmas on the comparison -/

theorem string_compare_eq_iff (a b : List Char) : string_compare a b = Ordering.eq ↔ a = b := by
  induction a generalizing b with
  | nil => cases b <;> simp [string_compare]
  | cons x xs ih =>
    cases b with
    | nil => simp [string_compare]
    | cons y ys =>
      simp only [string_compare]
      by_cases h1 : x < y
      · simp [h1, ne_of_lt h1]
      · by_cases h2 : y < x
        · simp [h1, h2, (ne_of_lt h2).symm]
        · have hxy : x = y := le_antisymm (not_lt.mp h2) (not_lt.mp h1)
          simp [h1, h2, hxy, ih]

theorem string_compare_lt_iff (a b : List Char) : string_compare a b = Ordering.lt ↔ a < b := by
  induction a generalizing b with
  | nil =>
    cases b with
    | nil =>
      simp only [string_compare]
      constructor
      · intro h; cases h
      · intro h; exact absurd h (lt_irrefl _)
    | cons y ys => simp only [string_compare, true_iff]; exact List.Lex.nil
  | cons x xs ih =>
    cases b with
    | nil =>
      simp only [string_compare]
      constructor
      · intro h; cases h
      · intro h; cases h
    | cons y ys =>
      simp only [string_compare]
      by_cases h1 : x < y
      · simp only [h1, if_true, true_iff]; exact List.Lex.rel h1
      · by_cases h2 : y < x
        · simp only [h1, h2, if_true, if_false]
          constructor
          · intro h; cases h
          · intro h
            cases h with
            | cons h => exact absurd h2 (lt_irrefl _)
            | rel h => exact absurd h h1
        · have hxy : x = y := le_antisymm (not_lt.mp h2) (not_lt.mp h1)
          subst hxy
          simp only [h1, if_false, ih]
          constructor
          · intro h; exact List.Lex.cons h
          · intro h
            cases h with
            | cons h => exact h
            | rel h => exact absurd h h1

theorem to_weak_string_compare (a b : List Char) :
    to_weak (string_compare a b) = lexicographic a b := by
  unfold lexicographic
  by_cases hlt : a < b
  · rw [if_pos hlt, (string_compare_lt_iff a b).mpr hlt]; rfl
  · rw [if_neg hlt]
    by_cases heq : a = b
    · rw [if_pos heq, (string_compare_eq_iff a b).mpr heq]; rfl
    · rw [if_neg heq]
      cases h : string_compare a b with
      | lt => exact absurd ((string_compare_lt_iff a b).mp h) hlt
      | eq => exact absurd ((string_compare_eq_iff a b).mp h) heq
      | gt => rfl

theorem to_weak_eq_equivalent (c : Ordering) :
    to_weak c = weak_ordering.equivalent ↔ c = Ordering.eq := by
  cases c <;> simp [to_weak]

theorem floating_point_is_equal_finite (a b : ℚ) :
    floating_point_is_equal (Double.finite a) (Double.finite b) = true
      ↔ machine_tolerance_rule a b := by
  have h1 : mkRat 1 10000 = (1 : ℚ) / 10000 := by norm_num
  have h2 : mkRat 1 100000000 = (1 : ℚ) / 100000000 := by norm_num
  have hmax : Double.max (Double.finite |a|) (Double.finite |b|) = Double.finite (max |a| |b|) := by
    unfold Double.max
    by_cases h : |a| < |b|
    · simp [Double.lt, h, max_eq_right (le_of_lt h)]
    · simp [Double.lt, h, max_eq_left (not_lt.mp h)]
  simp only [floating_point_is_equal, Double.sub, Double.abs, hmax, EPSILON1, EPSILON2, Double.mul,
    Double.lt, h1, h2, machine_tolerance_rule, Bool.or_eq_true, decide_eq_true_eq]

theorem long_double_epsilon2_pos : (0 : ℚ) < long_double (mkRat 1 100000000) := by decide!

theorem long_double_epsilon1_pos : (0 : ℚ) < long_double (1 / 10000) := by
  have h1 : mkRat 1 10000 = (1 : ℚ) / 10000 := by norm_num
  rw [← h1]
  decide!

theorem floating_point_is_equal_iff (a b : Double) :
    floating_point_is_equal a b = true ↔ machine_prices_close a b := by
  have h3 := long_double_epsilon2_pos
  have h2 : ¬ (long_double (mkRat 1 100000000) = 0) := ne_of_gt h3
  cases a <;> cases b <;>
    first
    | exact floating_point_is_equal_finite _ _
    | simp [floating_point_is_equal, Double.sub, Double.abs, Double.max, Double.lt, Double.mul,
        EPSILON1, EPSILON2, machine_prices_close, h2, h3]

/-! ## Claims on the relational operators -/

/-- C3. Equality is consistent with ordering: `x <=> y` is
`std::weak_ordering::equivalent` if and only if `x == y` is true, for all items,
whatever their prices (finite, infinite or NaN). -/
theorem operator_cmp_equivalent_iff_operator_eq (x y : GroceryItem) :
    x.operator_cmp y = weak_ordering.equivalent ↔ x.operator_eq y = true := by
  unfold GroceryItem.operator_cmp GroceryItem.operator_eq
  simp only [ne_eq, string_compare_eq_iff]
  by_cases e1 : x._upcCode = y._upcCode
  · by_cases e2 : x._productName = y._productName
    · by_cases e3 : x._brandName = y._brandName
      · cases hf : floating_point_is_equal x._price y._price
        · cases hl : Double.lt x._price y._price <;> simp [e1, e2, e3, hf, hl]
        · simp [e1, e2, e3, hf]
      · simp [e1, e2, e3, to_weak_eq_equivalent, string_compare_eq_iff]
    · simp [e1, e2, to_weak_eq_equivalent, string_compare_eq_iff]
  · simp [e1, to_weak_eq_equivalent, string_compare_eq_iff]

/-- C4, evaluated at a failing input. Three items with the same three texts and
the prices `1`, `1 + 2^-14` and `1 + 2^-13` (all three are binary64 values, and
both differences are computed exactly): the first is equivalent to the second,
the second to the third, and yet the first is less than the third, so the
equivalence of `operator<=>` is not transitive. -/
theorem operator_cmp_equivalence_not_transitive :
    (GroceryItem.ctor ['W'] ['B'] ['1'] (Double.finite (mkRat 1 1))).operator_cmp
        (GroceryItem.ctor ['W'] ['B'] ['1'] (Double.finite (mkRat 16385 16384)))
      = weak_ordering.equivalent
    ∧ (GroceryItem.ctor ['W'] ['B'] ['1'] (Double.finite (mkRat 16385 16384))).operator_cmp
        (GroceryItem.ctor ['W'] ['B'] ['1'] (Double.finite (mkRat 8193 8192)))
      = weak_ordering.equivalent
    ∧ (GroceryItem.ctor ['W'] ['B'] ['1'] (Double.finite (mkRat 1 1))).operator_cmp
        (GroceryItem.ctor ['W'] ['B'] ['1'] (Double.finite (mkRat 8193 8192)))
      = weak_ordering.less := by
  decide!

/-- C5, counterexample. Two items with the same three texts and the prices
0.000102 and 0.000002 (the binary64 values of the literals): the exact difference
of the two prices is below `1e-4`, so the prices satisfy the tolerance rule on
real numbers, but the difference computed in `double` is rounded up to a value
above `1e-4L`, and `operator==` is false. -/
theorem operator_eq_rounds_difference :
    tolerance_rule (binary64 (mkRat 102 1000000)) (binary64 (mkRat 2 1000000))
    ∧ (GroceryItem.ctor ['P'] ['B'] ['U']
          (Double.finite (binary64 (mkRat 102 1000000)))).operator_eq
        (GroceryItem.ctor ['P'] ['B'] ['U'] (Double.finite (binary64 (mkRat 2 1000000))))
      = false := by
  decide!

/-- C5 as amended. Definition of equality: `x == y` is true if and only if the
UPC codes, the product names and the brand names are identical and the prices
satisfy the tolerance rule in the arithmetic of the machine: with `d` the
difference of the prices rounded to `double`, `|d| < 1e-4L` or
`|d| < 1e-8L * max(|a|, |b|)`, the product rounded to `long double`. -/
theorem operator_eq_iff_machine_tolerance (x y : GroceryItem) :
    x.operator_eq y = true ↔
      x._upcCode = y._upcCode ∧ x._productName = y._productName ∧ x._brandName = y._brandName
        ∧ machine_prices_close x._price y._price := by
  unfold GroceryItem.operator_eq
  simp only [Bool.and_eq_true, decide_eq_true_eq, floating_point_is_equal_iff, and_assoc]

/-- C6, counterexample. Two items with the same three texts and the prices
0.000102 and 0.000002 (the binary64 values of the literals): the prices satisfy
the tolerance rule on real numbers, so the ordering of the specification is
equivalent, but `operator<=>` computes the difference in `double`, finds the
prices apart and returns greater. -/
theorem operator_cmp_rounds_difference :
    spec_ordering
        (GroceryItem.ctor ['P'] ['B'] ['U'] (Double.finite (binary64 (mkRat 102 1000000))))
        (GroceryItem.ctor ['P'] ['B'] ['U'] (Double.finite (binary64 (mkRat 2 1000000))))
      = weak_ordering.equivalent
    ∧ (GroceryItem.ctor ['P'] ['B'] ['U']
          (Double.finite (binary64 (mkRat 102 1000000)))).operator_cmp
        (GroceryItem.ctor ['P'] ['B'] ['U'] (Double.finite (binary64 (mkRat 2 1000000))))
      = weak_ordering.greater := by
  decide!

/-- C6 as amended. The tie-break sequence of the ordering: `x <=> y` is the
lexicographic comparison of the UPC codes when they differ, otherwise that of the
product names when they differ, otherwise that of the brand names when they
differ, otherwise it is equivalent when the prices are within the tolerance rule
in the arithmetic of the machine, and otherwise less when the price of `x` is
below the price of `y` and greater when not. -/
theorem operator_cmp_eq_machine_ordering (x y : GroceryItem) :
    x.operator_cmp y = machine_ordering x y := by
  unfold GroceryItem.operator_cmp machine_ordering
  simp only [ne_eq, string_compare_eq_iff, to_weak_string_compare]
  cases hf : floating_point_is_equal x._price y._price
  · have hn : ¬ machine_prices_close x._price y._price := by
      rw [← floating_point_is_equal_iff, hf]; exact Bool.false_ne_true
    simp [hn]
  · have hp : machine_prices_close x._price y._price :=
      (floating_point_is_equal_iff _ _).mp hf
    simp [hp]

/-! ## Lemmas on the stream reads -/

theorem char_in_of_failbit (s : istream) (h : s.failbit = true) : char_in s = (s, none) := by
  simp [char_in, h]

theorem quoted_in_of_failbit (s : istream) (h : s.failbit = true) : quoted_in s = (s, []) := by
  simp [quoted_in, char_in_of_failbit s h]

theorem double_in_of_failbit (s : istream) (h : s.failbit = true) :
    double_in s = (s, Double.finite 0) := by
  simp [double_in, h]

theorem read_brandName_failbit (s : istream) (h : (read_upcCode s).1.failbit = true) :
    (read_brandName s).1.failbit = true := by
  unfold read_brandName
  rw [char_in_of_failbit _ h, quoted_in_of_failbit _ h]
  exact h

theorem read_productName_failbit (s : istream) (h : (read_brandName s).1.failbit = true) :
    (read_productName s).1.failbit = true := by
  unfold read_productName
  rw [char_in_of_failbit _ h, quoted_in_of_failbit _ h]
  exact h

theorem read_price_failbit (s : istream) (h : (read_productName s).1.failbit = true) :
    (read_price s).1.failbit = true := by
  unfold read_price
  rw [char_in_of_failbit _ h, double_in_of_failbit _ h]
  exact h

theorem operator_extract_failbit (s : istream) (g : GroceryItem) :
    (operator_extract s g).1.failbit = (read_price s).1.failbit := by
  unfold operator_extract istream.ok istream.setstate_failbit
  cases h : (read_price s).1.failbit <;> simp [h]

theorem quoted_escape_eq_bind (str : List Char) :
    quoted_escape str
      = str.flatMap (fun c => if c = Char.ofNat 34 ∨ c = Char.ofNat 92 then [Char.ofNat 92, c] else [c]) := by
  induction str with
  | nil => rfl
  | cons c rest ih =>
    simp only [quoted_escape, List.flatMap_cons, ih, delim, escape, Bool.or_eq_true, decide_eq_true_eq]
    by_cases h : c = Char.ofNat 34 ∨ c = Char.ofNat 92
    · simp [h]
    · simp [h]

theorem quoted_out_eq_spec_quote (str : List Char) : quoted_out str = spec_quote str := by
  simp [quoted_out, spec_quote, quoted_escape_eq_bind, delim]

theorem delim_ne_escape : delim ≠ escape := by decide

theorem isspace_delim : isspace delim = false := by decide

theorem skipws_cons_of_not_isspace (c : Char) (rest : List Char) (h : isspace c = false) :
    skipws (c :: rest) = c :: rest := by
  simp [skipws, List.dropWhile, h]

theorem skipws_cons_of_isspace (c : Char) (rest : List Char) (h : isspace c = true) :
    skipws (c :: rest) = skipws rest := by
  simp [skipws, List.dropWhile, h]

theorem char_in_cons (c : Char) (rest : List Char) (h : isspace c = false) :
    char_in { buf := c :: rest, failbit := false } = ({ buf := rest, failbit := false }, some c) := by
  simp [char_in, skipws_cons_of_not_isspace c rest h]

theorem char_in_space (c : Char) (rest : List Char) (h : isspace c = true) :
    char_in { buf := c :: rest, failbit := false } = char_in { buf := rest, failbit := false } := by
  simp [char_in, skipws_cons_of_isspace c rest h]

theorem char_in_failbit_of_skipws_nil (s : istream) (h : skipws s.buf = []) :
    (char_in s).1.failbit = true := by
  unfold char_in
  cases hf : s.failbit
  · simp [h]
  · simp [hf]

theorem quoted_in_space (c : Char) (rest : List Char) (h : isspace c = true) :
    quoted_in { buf := c :: rest, failbit := false } = quoted_in { buf := rest, failbit := false } := by
  simp [quoted_in, char_in_space c rest h]

theorem double_in_space (c : Char) (rest : List Char) (h : isspace c = true) :
    double_in { buf := c :: rest, failbit := false } = double_in { buf := rest, failbit := false } := by
  simp [double_in, skipws_cons_of_isspace c rest h]

theorem quoted_body_delim (rest : List Char) :
    quoted_body (delim :: rest) = ({ buf := rest, failbit := false }, []) := by
  cases rest <;> simp [quoted_body, delim_ne_escape]

theorem quoted_body_escape (d : Char) (rest : List Char) :
    quoted_body (escape :: d :: rest) = ((quoted_body rest).1, d :: (quoted_body rest).2) := by
  simp [quoted_body]

theorem quoted_body_other (c : Char) (rest : List Char) (h1 : ¬ c = escape) (h2 : ¬ c = delim) :
    quoted_body (c :: rest) = ((quoted_body rest).1, c :: (quoted_body rest).2) := by
  cases rest <;> simp [quoted_body, h1, h2]

theorem quoted_body_quoted_escape (u rest : List Char) :
    quoted_body (quoted_escape u ++ delim :: rest) = ({ buf := rest, failbit := false }, u) := by
  induction u with
  | nil => simp [quoted_escape, quoted_body_delim]
  | cons c u ih =>
    by_cases h : c = delim ∨ c = escape
    · simp [quoted_escape, quoted_body_escape, h, ih]
    · have h1 : ¬ c = delim := fun e => h (Or.inl e)
      have h2 : ¬ c = escape := fun e => h (Or.inr e)
      simp [quoted_escape, quoted_body_other _ _ h2 h1, h1, h2, ih]

theorem quoted_in_quoted_out (u rest : List Char) :
    quoted_in { buf := quoted_out u ++ rest, failbit := false }
      = ({ buf := rest, failbit := false }, u) := by
  have h : quoted_out u ++ rest = delim :: (quoted_escape u ++ delim :: rest) := by
    simp [quoted_out]
  rw [h]
  simp [quoted_in, char_in_cons delim _ isspace_delim, quoted_body_quoted_escape]

theorem quoted_body_failbit_of_not_mem (l : List Char) (h : delim ∉ l) :
    (quoted_body l).1.failbit = true := by
  induction l using quoted_body.induct with
  | case1 => simp [quoted_body]
  | case2 => simp [quoted_body]
  | case3 c rest ih =>
    have : delim ∉ rest := fun hm => h (List.mem_cons_of_mem _ (List.mem_cons_of_mem _ hm))
    simp [quoted_body_escape, ih this]
  | case4 rest hd => exact absurd (List.mem_cons_self _ _) h
  | case5 c rest hc hd ih =>
    have : delim ∉ rest := fun hm => h (List.mem_cons_of_mem _ hm)
    simp [quoted_body_other _ _ hc hd, ih this]

theorem quoted_in_failbit_of_unclosed_quote (s : istream) (h : unclosed_quote s.buf = true) :
    (quoted_in s).1.failbit = true := by
  cases hf : s.failbit
  · unfold unclosed_quote at h
    cases hb : skipws s.buf with
    | nil => simp [hb] at h
    | cons c rest =>
      simp only [hb, Bool.and_eq_true, decide_eq_true_eq] at h
      have hq := quoted_body_failbit_of_not_mem rest h.2
      simp [quoted_in, char_in, hf, hb, h.1, hq]
  · rw [quoted_in_of_failbit s hf]; exact hf

theorem isspace_space : isspace ' ' = true := by decide

theorem isspace_comma : isspace ',' = false := by decide

theorem word_takeWhile (w : List Char) (sp : Char) (rest : List Char)
    (hw : w.all (fun x => !isspace x) = true) (hsp : isspace sp = true) :
    (w ++ sp :: rest).takeWhile (fun c => !isspace c) = w
    ∧ (w ++ sp :: rest).dropWhile (fun c => !isspace c) = sp :: rest := by
  induction w with
  | nil => simp [List.takeWhile, List.dropWhile, hsp]
  | cons c w ih =>
    simp only [List.all_cons, Bool.and_eq_true, Bool.not_eq_true'] at hw
    have := ih hw.2
    simp [List.takeWhile, List.dropWhile, hw.1, this.1, this.2]

theorem quoted_in_word (w : List Char) (sp : Char) (rest : List Char)
    (hw : is_word w = true) (hsp : isspace sp = true) :
    quoted_in { buf := w ++ sp :: rest, failbit := false }
      = ({ buf := sp :: rest, failbit := false }, w) := by
  cases w with
  | nil => simp [is_word] at hw
  | cons c w =>
    simp only [is_word, Bool.and_eq_true, Bool.not_eq_true', decide_eq_false_iff_not] at hw
    have hall := hw.2
    have hc : isspace c = false := by
      simp only [List.all_cons, Bool.and_eq_true, Bool.not_eq_true'] at hall
      exact hall.1
    have htd := word_takeWhile (c :: w) sp rest hall hsp
    have hsk : skipws (c :: (w ++ sp :: rest)) = c :: (w ++ sp :: rest) :=
      skipws_cons_of_not_isspace c _ hc
    simp only [List.cons_append] at htd
    simp [quoted_in, char_in, string_in, hsk, hw.1, htd.1, htd.2]

theorem operator_extract_record_text (u b p : List Char) (c1 c2 c3 : Char) (rest : List Char)
    (g : GroceryItem) (h1 : isspace c1 = false) (h2 : isspace c2 = false)
    (h3 : isspace c3 = false) :
    operator_extract { buf := record_text u b p c1 c2 c3 rest, failbit := false } g
      = if (double_in { buf := rest, failbit := false }).1.ok then
          ((double_in { buf := rest, failbit := false }).1,
           GroceryItem.ctor p b u (double_in { buf := rest, failbit := false }).2)
        else ((double_in { buf := rest, failbit := false }).1.setstate_failbit, g) := by
  have e1 : read_upcCode { buf := record_text u b p c1 c2 c3 rest, failbit := false }
      = ({ buf := c1 :: ' ' :: (quoted_out b ++ c2 :: ' ' :: (quoted_out p ++ c3 :: ' ' :: rest)),
           failbit := false }, u) := by
    simp [read_upcCode, record_text, quoted_in_quoted_out]
  have e2 : read_brandName { buf := record_text u b p c1 c2 c3 rest, failbit := false }
      = ({ buf := c2 :: ' ' :: (quoted_out p ++ c3 :: ' ' :: rest), failbit := false }, b) := by
    simp [read_brandName, e1, char_in_cons c1 _ h1, quoted_in_space _ _ isspace_space,
      quoted_in_quoted_out]
  have e3 : read_productName { buf := record_text u b p c1 c2 c3 rest, failbit := false }
      = ({ buf := c3 :: ' ' :: rest, failbit := false }, p) := by
    simp [read_productName, e2, char_in_cons c2 _ h2, quoted_in_space _ _ isspace_space,
      quoted_in_quoted_out]
  have e4 : read_price { buf := record_text u b p c1 c2 c3 rest, failbit := false }
      = double_in { buf := rest, failbit := false } := by
    simp [read_price, e3, char_in_cons c3 _ h3, double_in_space _ _ isspace_space]
  simp [operator_extract, e1, e2, e3, e4]

theorem operator_extract_unquoted_text (w1 w2 w3 : List Char) (c1 c2 c3 : Char)
    (rest : List Char) (g : GroceryItem)
    (hw1 : is_word w1 = true) (hw2 : is_word w2 = true) (hw3 : is_word w3 = true)
    (h1 : isspace c1 = false) (h2 : isspace c2 = false) (h3 : isspace c3 = false) :
    operator_extract { buf := unquoted_text w1 w2 w3 c1 c2 c3 rest, failbit := false } g
      = if (double_in { buf := rest, failbit := false }).1.ok then
          ((double_in { buf := rest, failbit := false }).1,
           GroceryItem.ctor w3 w2 w1 (double_in { buf := rest, failbit := false }).2)
        else ((double_in { buf := rest, failbit := false }).1.setstate_failbit, g) := by
  have e1 : read_upcCode { buf := unquoted_text w1 w2 w3 c1 c2 c3 rest, failbit := false }
      = ({ buf := ' ' :: c1 :: (w2 ++ ' ' :: c2 :: (w3 ++ ' ' :: c3 :: rest)),
           failbit := false }, w1) := by
    simp [read_upcCode, unquoted_text, quoted_in_word _ _ _ hw1 isspace_space]
  have e2 : read_brandName { buf := unquoted_text w1 w2 w3 c1 c2 c3 rest, failbit := false }
      = ({ buf := ' ' :: c2 :: (w3 ++ ' ' :: c3 :: rest), failbit := false }, w2) := by
    simp [read_brandName, e1, char_in_space _ _ isspace_space, char_in_cons c1 _ h1,
      quoted_in_word _ _ _ hw2 isspace_space]
  have e3 : read_productName { buf := unquoted_text w1 w2 w3 c1 c2 c3 rest, failbit := false }
      = ({ buf := ' ' :: c3 :: rest, failbit := false }, w3) := by
    simp [read_productName, e2, char_in_space _ _ isspace_space, char_in_cons c2 _ h2,
      quoted_in_word _ _ _ hw3 isspace_space]
  have e4 : read_price { buf := unquoted_text w1 w2 w3 c1 c2 c3 rest, failbit := false }
      = double_in { buf := rest, failbit := false } := by
    simp [read_price, e3, char_in_space _ _ isspace_space, char_in_cons c3 _ h3]
  simp [operator_extract, e1, e2, e3, e4]

/-! ## Claims on the codec -/

/-- C1, evaluated at a failing input. The item with UPC code `111`, brand
`BrandA`, product `Widget` and price 12345.67 is written as
`"111", "BrandA", "Widget", 12345.7` (six significant digits); parsing that text
succeeds and gives the price 12345.7, and the parsed item is not equal to the
written one under `operator==`.  The prices are the binary64 values of the
literals. -/
theorem round_trip_loses_price_digits :
    operator_insert []
        (GroceryItem.ctor "Widget".toList "BrandA".toList "111".toList
          (Double.finite (binary64 (mkRat 1234567 100))))
      = "\"111\", \"BrandA\", \"Widget\", 12345.7".toList
    ∧ operator_extract
        { buf := operator_insert []
            (GroceryItem.ctor "Widget".toList "BrandA".toList "111".toList
              (Double.finite (binary64 (mkRat 1234567 100)))),
          failbit := false }
        (GroceryItem.ctor [] [] [] (Double.finite 0))
      = ({ buf := [], failbit := false },
         GroceryItem.ctor "Widget".toList "BrandA".toList "111".toList
           (Double.finite (binary64 (mkRat 123457 10))))
    ∧ (operator_extract
        { buf := operator_insert []
            (GroceryItem.ctor "Widget".toList "BrandA".toList "111".toList
              (Double.finite (binary64 (mkRat 1234567 100)))),
          failbit := false }
        (GroceryItem.ctor [] [] [] (Double.finite 0))).2.operator_eq
        (GroceryItem.ctor "Widget".toList "BrandA".toList "111".toList
          (Double.finite (binary64 (mkRat 1234567 100))))
      = false := by
  decide!

/-- C2. Parsing is all or nothing: when `operator>>` reports failure the target
holds its prior value in all four fields, and the target differs from its prior
value only when all four sub-reads succeeded. -/
theorem operator_extract_atomic (stream : istream) (g : GroceryItem) :
    ((operator_extract stream g).1.failbit = true → (operator_extract stream g).2 = g)
    ∧ ((operator_extract stream g).2 ≠ g →
        (read_upcCode stream).1.ok = true ∧ (read_brandName stream).1.ok = true
          ∧ (read_productName stream).1.ok = true ∧ (read_price stream).1.ok = true) := by
  have key : (read_price stream).1.failbit = true → (operator_extract stream g).2 = g := by
    intro h
    simp [operator_extract, istream.ok, h]
  refine ⟨fun h => key (by rw [← operator_extract_failbit stream g]; exact h), fun hne => ?_⟩
  have h4 : (read_price stream).1.failbit = false := by
    cases h : (read_price stream).1.failbit
    · rfl
    · exact absurd (key h) hne
  have h3 : (read_productName stream).1.failbit = false := by
    cases h : (read_productName stream).1.failbit
    · rfl
    · rw [read_price_failbit stream h] at h4; cases h4
  have h2 : (read_brandName stream).1.failbit = false := by
    cases h : (read_brandName stream).1.failbit
    · rfl
    · rw [read_productName_failbit stream h] at h3; cases h3
  have h1 : (read_upcCode stream).1.failbit = false := by
    cases h : (read_upcCode stream).1.failbit
    · rfl
    · rw [read_brandName_failbit stream h] at h2; cases h2
  simp [istream.ok, h1, h2, h3, h4]

/-- C2, witness: the text `"123", "BrandX", "Product missing price"` fails and
leaves a target that held other values unmodified. -/
theorem operator_extract_atomic_witness :
    (operator_extract
        { buf := "\"123\", \"BrandX\", \"Product missing price\"".toList, failbit := false }
        (GroceryItem.ctor ['P'] ['B'] ['U'] (Double.finite (mkRat 5 2)))).1.failbit = true
    ∧ (operator_extract
        { buf := "\"123\", \"BrandX\", \"Product missing price\"".toList, failbit := false }
        (GroceryItem.ctor ['P'] ['B'] ['U'] (Double.finite (mkRat 5 2)))).2
      = GroceryItem.ctor ['P'] ['B'] ['U'] (Double.finite (mkRat 5 2)) :=
  ⟨by decide, (operator_extract_atomic _ _).1 (by decide)⟩

/-- C7. The output of `operator<<`: the characters appended to the stream are the
quoted UPC code, comma and space, the quoted brand name, comma and space, the
quoted product name, comma and space, and the decimal text of the price, where
quoting is as the specification describes it. -/
theorem operator_insert_eq_spec_format (stream : List Char) (r : GroceryItem) :
    operator_insert stream r = stream ++ spec_format r := by
  simp [operator_insert, spec_format, quoted_out_eq_spec_quote]

/-- C8. Field mapping of a successful parse: the first quoted string read is the
UPC code of the item, the second its brand name, the third its product name, and
the number its price. -/
theorem operator_extract_fields (stream : istream) (g : GroceryItem)
    (h : (operator_extract stream g).1.failbit = false) :
    (operator_extract stream g).2.upcCode = (read_upcCode stream).2
    ∧ (operator_extract stream g).2.brandName = (read_brandName stream).2
    ∧ (operator_extract stream g).2.productName = (read_productName stream).2
    ∧ (operator_extract stream g).2.price = (read_price stream).2 := by
  rw [operator_extract_failbit] at h
  simp [operator_extract, istream.ok, h, GroceryItem.ctor, GroceryItem.upcCode,
    GroceryItem.brandName, GroceryItem.productName, GroceryItem.price]

/-- C8, witness: the text `"111", "BrandA", "Widget", 1.99` yields the UPC code
`111`, the brand name `BrandA`, the product name `Widget` and the price 1.99. -/
theorem operator_extract_fields_witness :
    (operator_extract { buf := "\"111\", \"BrandA\", \"Widget\", 1.99".toList, failbit := false }
        (GroceryItem.ctor [] [] [] (Double.finite 0))).1.failbit = false
    ∧ (read_upcCode { buf := "\"111\", \"BrandA\", \"Widget\", 1.99".toList, failbit := false }).2
        = ['1', '1', '1']
    ∧ (read_brandName { buf := "\"111\", \"BrandA\", \"Widget\", 1.99".toList, failbit := false }).2
        = ['B', 'r', 'a', 'n', 'd', 'A']
    ∧ (read_productName { buf := "\"111\", \"BrandA\", \"Widget\", 1.99".toList, failbit := false }).2
        = ['W', 'i', 'd', 'g', 'e', 't']
    ∧ (read_price { buf := "\"111\", \"BrandA\", \"Widget\", 1.99".toList, failbit := false }).2
        = Double.finite (binary64 (mkRat 199 100))
    ∧ ((operator_extract { buf := "\"111\", \"BrandA\", \"Widget\", 1.99".toList, failbit := false }
          (GroceryItem.ctor [] [] [] (Double.finite 0))).2.upcCode
        = (read_upcCode { buf := "\"111\", \"BrandA\", \"Widget\", 1.99".toList, failbit := false }).2
      ∧ (operator_extract { buf := "\"111\", \"BrandA\", \"Widget\", 1.99".toList, failbit := false }
          (GroceryItem.ctor [] [] [] (Double.finite 0))).2.brandName
        = (read_brandName { buf := "\"111\", \"BrandA\", \"Widget\", 1.99".toList, failbit := false }).2
      ∧ (operator_extract { buf := "\"111\", \"BrandA\", \"Widget\", 1.99".toList, failbit := false }
          (GroceryItem.ctor [] [] [] (Double.finite 0))).2.productName
        = (read_productName { buf := "\"111\", \"BrandA\", \"Widget\", 1.99".toList, failbit := false }).2
      ∧ (operator_extract { buf := "\"111\", \"BrandA\", \"Widget\", 1.99".toList, failbit := false }
          (GroceryItem.ctor [] [] [] (Double.finite 0))).2.price
        = (read_price { buf := "\"111\", \"BrandA\", \"Widget\", 1.99".toList, failbit := false }).2) :=
  ⟨by decide, by decide, by decide, by decide, by decide, operator_extract_fields _ _ (by decide)⟩

/-- C9, counterexample. In the text `"111"; "BrandA"; "Widget"; 1.99` the
character after each quoted string is a semicolon, not a comma, and `operator>>`
succeeds on it, with the four fields of the comma form. -/
theorem operator_extract_accepts_semicolons :
    (skipws (read_upcCode
        { buf := "\"111\"; \"BrandA\"; \"Widget\"; 1.99".toList, failbit := false }).1.buf).head?
      = some ';'
    ∧ operator_extract
        { buf := "\"111\"; \"BrandA\"; \"Widget\"; 1.99".toList, failbit := false }
        (GroceryItem.ctor [] [] [] (Double.finite 0))
      = ({ buf := [], failbit := false },
         GroceryItem.ctor "Widget".toList "BrandA".toList "111".toList
           (Double.finite (binary64 (mkRat 199 100)))) := by
  decide

/-- C9 as amended. `operator>>` reads one character after each of the three
quoted strings, after optional white space, and does not compare it with a comma:
when the input ends there `operator>>` reports failure, and any three characters
that are not white space, put in the place of the three commas, give the same
result as the commas. -/
theorem operator_extract_delimiter (stream : istream) (g : GroceryItem)
    (u b p rest : List Char) (c1 c2 c3 : Char) :
    ((skipws (read_upcCode stream).1.buf = [] ∨ skipws (read_brandName stream).1.buf = []
        ∨ skipws (read_productName stream).1.buf = []) →
      (operator_extract stream g).1.failbit = true)
    ∧ (isspace c1 = false → isspace c2 = false → isspace c3 = false →
        operator_extract { buf := record_text u b p c1 c2 c3 rest, failbit := false } g
          = operator_extract { buf := record_text u b p ',' ',' ',' rest, failbit := false } g) := by
  constructor
  · intro h
    rw [operator_extract_failbit]
    rcases h with h | h | h
    · have h1 := char_in_failbit_of_skipws_nil _ h
      have h2 : (read_brandName stream).1.failbit = true := by
        unfold read_brandName
        rw [quoted_in_of_failbit _ h1]; exact h1
      exact read_price_failbit _ (read_productName_failbit _ h2)
    · have h1 := char_in_failbit_of_skipws_nil _ h
      have h2 : (read_productName stream).1.failbit = true := by
        unfold read_productName
        rw [quoted_in_of_failbit _ h1]; exact h1
      exact read_price_failbit _ h2
    · have h1 := char_in_failbit_of_skipws_nil _ h
      unfold read_price
      rw [double_in_of_failbit _ h1]; exact h1
  · intro h1 h2 h3
    rw [operator_extract_record_text u b p c1 c2 c3 rest g h1 h2 h3,
      operator_extract_record_text u b p ',' ',' ',' rest g isspace_comma isspace_comma
        isspace_comma]

/-- C9 as amended, witness: the text `"111", "BrandA"` ends after the second
quoted string and fails; the record `111`, `BrandA`, `Widget` followed by ` 1.99`
parses with semicolons as it does with commas. -/
theorem operator_extract_delimiter_witness :
    skipws (read_brandName { buf := "\"111\", \"BrandA\"".toList, failbit := false }).1.buf = []
    ∧ (operator_extract { buf := "\"111\", \"BrandA\"".toList, failbit := false }
        (GroceryItem.ctor [] [] [] (Double.finite 0))).1.failbit = true
    ∧ isspace ';' = false
    ∧ operator_extract
        { buf := record_text ['1', '1', '1'] ['B', 'r', 'a', 'n', 'd', 'A']
            ['W', 'i', 'd', 'g', 'e', 't'] ';' ';' ';' ['1', '.', '9', '9'], failbit := false }
        (GroceryItem.ctor [] [] [] (Double.finite 0))
      = operator_extract
        { buf := record_text ['1', '1', '1'] ['B', 'r', 'a', 'n', 'd', 'A']
            ['W', 'i', 'd', 'g', 'e', 't'] ',' ',' ',' ['1', '.', '9', '9'], failbit := false }
        (GroceryItem.ctor [] [] [] (Double.finite 0)) :=
  ⟨by decide,
   (operator_extract_delimiter { buf := "\"111\", \"BrandA\"".toList, failbit := false }
      (GroceryItem.ctor [] [] [] (Double.finite 0)) [] [] [] [] ',' ',' ',').1
      (Or.inr (Or.inl (by decide))),
   by decide,
   (operator_extract_delimiter { buf := [], failbit := false }
      (GroceryItem.ctor [] [] [] (Double.finite 0)) ['1', '1', '1'] ['B', 'r', 'a', 'n', 'd', 'A']
      ['W', 'i', 'd', 'g', 'e', 't'] ['1', '.', '9', '9'] ';' ';' ';').2
      (by decide) (by decide) (by decide)⟩

/-- C10, counterexample. In the text `111, BrandA, Widget, 1.99` no string field
starts with a double quote, and `operator>>` succeeds on it: the UPC code is
`111,`, the character `B` is taken as delimiter, the brand name is `randA,`, the
character `W` is taken as delimiter, the product name is `idget,`, the
character `1` is taken as delimiter and the price is 0.99. -/
theorem operator_extract_accepts_unquoted :
    (skipws "111, BrandA, Widget, 1.99".toList).head? = some '1'
    ∧ operator_extract { buf := "111, BrandA, Widget, 1.99".toList, failbit := false }
        (GroceryItem.ctor [] [] [] (Double.finite 0))
      = ({ buf := [], failbit := false },
         GroceryItem.ctor "idget,".toList "randA,".toList "111,".toList
           (Double.finite (binary64 (mkRat 99 100)))) := by
  decide

/-- C10 as amended. `operator>>` does not require quoted string fields. It
reports failure when a string field starts with a double quote that no other
double quote follows; a string field that does not start with a double quote is
read as the run of characters up to the next white space, so that a text of
three such words, each followed by a space and one more character, parses as
soon as a number follows. -/
theorem operator_extract_quoting (stream : istream) (g : GroceryItem)
    (w1 w2 w3 rest : List Char) (c1 c2 c3 : Char) :
    ((unclosed_quote stream.buf = true
        ∨ unclosed_quote (char_in (read_upcCode stream).1).1.buf = true
        ∨ unclosed_quote (char_in (read_brandName stream).1).1.buf = true) →
      (operator_extract stream g).1.failbit = true)
    ∧ (is_word w1 = true → is_word w2 = true → is_word w3 = true →
        isspace c1 = false → isspace c2 = false → isspace c3 = false →
        (double_in { buf := rest, failbit := false }).1.failbit = false →
        operator_extract { buf := unquoted_text w1 w2 w3 c1 c2 c3 rest, failbit := false } g
          = ((double_in { buf := rest, failbit := false }).1,
             GroceryItem.ctor w3 w2 w1 (double_in { buf := rest, failbit := false }).2)) := by
  constructor
  · intro h
    rw [operator_extract_failbit]
    rcases h with h | h | h
    · have h1 : (read_upcCode stream).1.failbit = true :=
        quoted_in_failbit_of_unclosed_quote _ h
      exact read_price_failbit _ (read_productName_failbit _ (read_brandName_failbit _ h1))
    · have h2 : (read_brandName stream).1.failbit = true :=
        quoted_in_failbit_of_unclosed_quote _ h
      exact read_price_failbit _ (read_productName_failbit _ h2)
    · have h3 : (read_productName stream).1.failbit = true :=
        quoted_in_failbit_of_unclosed_quote _ h
      exact read_price_failbit _ h3
  · intro hw1 hw2 hw3 h1 h2 h3 hd
    rw [operator_extract_unquoted_text w1 w2 w3 c1 c2 c3 rest g hw1 hw2 hw3 h1 h2 h3]
    simp [istream.ok, hd]

/-- C10 as amended, witness: the text `"111", "BrandA` fails, its second string
field being opened and never closed; the text `111, BrandA, Widget, 1.99` is made
of the words `111,`, `randA,` and `idget,` with `B`, `W` and `1` in the places of
the delimiters and `.99` as the number. -/
theorem operator_extract_quoting_witness :
    unclosed_quote
        (char_in (read_upcCode { buf := "\"111\", \"BrandA".toList, failbit := false }).1).1.buf
      = true
    ∧ (operator_extract { buf := "\"111\", \"BrandA".toList, failbit := false }
        (GroceryItem.ctor [] [] [] (Double.finite 0))).1.failbit = true
    ∧ unquoted_text "111,".toList "randA,".toList "idget,".toList 'B' 'W' '1' ".99".toList
      = "111, BrandA, Widget, 1.99".toList
    ∧ operator_extract
        { buf := unquoted_text "111,".toList "randA,".toList "idget,".toList 'B' 'W' '1'
            ".99".toList, failbit := false }
        (GroceryItem.ctor [] [] [] (Double.finite 0))
      = ((double_in { buf := ".99".toList, failbit := false }).1,
         GroceryItem.ctor "idget,".toList "randA,".toList "111,".toList
           (double_in { buf := ".99".toList, failbit := false }).2) :=
  ⟨by decide,
   (operator_extract_quoting { buf := "\"111\", \"BrandA".toList, failbit := false }
      (GroceryItem.ctor [] [] [] (Double.finite 0)) [] [] [] [] ',' ',' ',').1
      (Or.inr (Or.inl (by decide))),
   by decide,
   (operator_extract_quoting { buf := [], failbit := false }
      (GroceryItem.ctor [] [] [] (Double.finite 0)) "111,".toList "randA,".toList
      "idget,".toList ".99".toList 'B' 'W' '1').2
      (by decide) (by decide) (by decide) (by decide) (by decide) (by decide) (by decide)⟩

/-! ## Claims on the tolerance and the modifiers -/

theorem abs_binary64_sub_comm (a b : ℚ) : |binary64 (a - b)| = |binary64 (b - a)| := by
  have h : b - a = -(a - b) := by ring
  rw [h, binary64_eq_round_binary, binary64_eq_round_binary, round_binary_neg, abs_neg]

theorem machine_tolerance_rule_comm (a b : ℚ) :
    machine_tolerance_rule a b ↔ machine_tolerance_rule b a := by
  unfold machine_tolerance_rule
  rw [abs_binary64_sub_comm a b, max_comm |a| |b|]

theorem prices_close_comm (a b : Double) :
    machine_prices_close a b ↔ machine_prices_close b a := by
  cases a <;> cases b <;> simp [machine_prices_close, machine_tolerance_rule_comm]

theorem floating_point_is_equal_comm (a b : Double) :
    floating_point_is_equal a b = floating_point_is_equal b a := by
  rw [Bool.eq_iff_iff, floating_point_is_equal_iff, floating_point_is_equal_iff]
  exact prices_close_comm a b

/-- In exact decimal arithmetic the prices 9.99995 and 10.00005 differ by exactly
`1e-4` and do not satisfy the tolerance rule; the binary64 values of the two
literals do. -/
theorem tolerance_rule_decimal_boundary :
    ¬ tolerance_rule (999995 / 100000) (1000005 / 100000)
    ∧ tolerance_rule (binary64 (mkRat 999995 100000)) (binary64 (mkRat 1000005 100000)) := by
  constructor
  · unfold tolerance_rule
    norm_num [abs_of_nonneg, abs_of_neg]
  · decide!

/-- C12. Symmetry of the tolerance: `floating_point_is_equal(a, b)` and
`floating_point_is_equal(b, a)` are the same for all values, finite or not, and
so `operator==` is symmetric. -/
theorem floating_point_is_equal_symmetric :
    (∀ a b : Double, floating_point_is_equal a b = floating_point_is_equal b a)
    ∧ (∀ x y : GroceryItem, x.operator_eq y = y.operator_eq x) := by
  refine ⟨floating_point_is_equal_comm, fun x y => ?_⟩
  unfold GroceryItem.operator_eq
  rw [floating_point_is_equal_comm x._price y._price]
  by_cases h1 : x._upcCode = y._upcCode <;> by_cases h2 : x._productName = y._productName <;>
    by_cases h3 : x._brandName = y._brandName <;>
    simp [h1, h2, h3, eq_comm]

/-- C13. Concrete cases of the price tolerance, on items with the same three
texts and the binary64 values of the literals as prices: 10.00000 and 10.00005
compare equal, 9.99999 and 10.00001 compare equal, 1.0000 and 1.0002 compare
unequal and the first is ordered less than the second. -/
theorem price_tolerance_cases :
    (GroceryItem.ctor ['P'] ['B'] ['U'] (Double.finite (binary64 (mkRat 10 1)))).operator_eq
        (GroceryItem.ctor ['P'] ['B'] ['U'] (Double.finite (binary64 (mkRat 1000005 100000))))
      = true
    ∧ (GroceryItem.ctor ['P'] ['B'] ['U'] (Double.finite (binary64 (mkRat 999999 100000)))).operator_eq
        (GroceryItem.ctor ['P'] ['B'] ['U'] (Double.finite (binary64 (mkRat 1000001 100000))))
      = true
    ∧ (GroceryItem.ctor ['P'] ['B'] ['U'] (Double.finite (binary64 (mkRat 1 1)))).operator_eq
        (GroceryItem.ctor ['P'] ['B'] ['U'] (Double.finite (binary64 (mkRat 10002 10000))))
      = false
    ∧ (GroceryItem.ctor ['P'] ['B'] ['U'] (Double.finite (binary64 (mkRat 1 1)))).operator_cmp
        (GroceryItem.ctor ['P'] ['B'] ['U'] (Double.finite (binary64 (mkRat 10002 10000))))
      = weak_ordering.less := by
  decide!

/-- C14. The boundary case of the price tolerance: two items with the same three
texts and the prices 9.99995 and 10.00005, that is the binary64 values of these
literals, compare equal under `operator==` and equivalent under `operator<=>`. -/
theorem price_tolerance_boundary :
    (GroceryItem.ctor ['P'] ['B'] ['U'] (Double.finite (binary64 (mkRat 999995 100000)))).operator_eq
        (GroceryItem.ctor ['P'] ['B'] ['U'] (Double.finite (binary64 (mkRat 1000005 100000))))
      = true
    ∧ (GroceryItem.ctor ['P'] ['B'] ['U'] (Double.finite (binary64 (mkRat 999995 100000)))).operator_cmp
        (GroceryItem.ctor ['P'] ['B'] ['U'] (Double.finite (binary64 (mkRat 1000005 100000))))
      = weak_ordering.equivalent := by
  decide!

/-- C17. The frame of the modifiers: each of the four modifiers returns the item
with the one field replaced by the new value and the three other fields
unchanged, the price modifier takes every value, and the matching accessor then
returns the new value. -/
theorem setter_frame (r : GroceryItem) (v : List Char) (w : Double) :
    (r.set_upcCode v = { r with _upcCode := v } ∧ (r.set_upcCode v).upcCode = v
      ∧ (r.set_upcCode v).brandName = r.brandName
      ∧ (r.set_upcCode v).productName = r.productName ∧ (r.set_upcCode v).price = r.price)
    ∧ (r.set_brandName v = { r with _brandName := v } ∧ (r.set_brandName v).brandName = v
      ∧ (r.set_brandName v).upcCode = r.upcCode
      ∧ (r.set_brandName v).productName = r.productName ∧ (r.set_brandName v).price = r.price)
    ∧ (r.set_productName v = { r with _productName := v } ∧ (r.set_productName v).productName = v
      ∧ (r.set_productName v).upcCode = r.upcCode
      ∧ (r.set_productName v).brandName = r.brandName ∧ (r.set_productName v).price = r.price)
    ∧ (r.set_price w = { r with _price := w } ∧ (r.set_price w).price = w
      ∧ (r.set_price w).upcCode = r.upcCode
      ∧ (r.set_price w).brandName = r.brandName ∧ (r.set_price w).productName = r.productName) := by
  simp [GroceryItem.set_upcCode, GroceryItem.set_brandName, GroceryItem.set_productName,
    GroceryItem.set_price, GroceryItem.upcCode, GroceryItem.brandName, GroceryItem.productName,
    GroceryItem.price]

/-! ## Claims on the ordering -/

theorem to_weak_eq_less (c : Ordering) : to_weak c = weak_ordering.less ↔ c = Ordering.lt := by
  cases c <;> simp [to_weak]

theorem to_weak_eq_greater (c : Ordering) :
    to_weak c = weak_ordering.greater ↔ c = Ordering.gt := by
  cases c <;> simp [to_weak]

theorem string_compare_gt_iff (a b : List Char) : string_compare a b = Ordering.gt ↔ b < a := by
  constructor
  · intro h
    rcases lt_trichotomy a b with hlt | heq | hgt
    · rw [(string_compare_lt_iff a b).mpr hlt] at h; cases h
    · rw [(string_compare_eq_iff a b).mpr heq] at h; cases h
    · exact hgt
  · intro h
    cases hc : string_compare a b with
    | lt => exact absurd ((string_compare_lt_iff a b).mp hc) (lt_asymm h)
    | eq => exact absurd ((string_compare_eq_iff a b).mp hc) (ne_of_gt h)
    | gt => rfl

theorem operator_cmp_less_iff (x y : GroceryItem) :
    x.operator_cmp y = weak_ordering.less ↔
      x._upcCode < y._upcCode ∨ (x._upcCode = y._upcCode ∧
        (x._productName < y._productName ∨ (x._productName = y._productName ∧
          (x._brandName < y._brandName ∨ (x._brandName = y._brandName ∧
            ¬ machine_prices_close x._price y._price ∧ Double.lt x._price y._price = true))))) := by
  unfold GroceryItem.operator_cmp
  simp only [ne_eq, string_compare_eq_iff, ← floating_point_is_equal_iff]
  by_cases e1 : x._upcCode = y._upcCode
  · by_cases e2 : x._productName = y._productName
    · by_cases e3 : x._brandName = y._brandName
      · cases hf : floating_point_is_equal x._price y._price
        · cases hl : Double.lt x._price y._price <;> simp [e1, e2, e3, hf, hl]
        · simp [e1, e2, e3, hf]
      · simp [e1, e2, e3, to_weak_eq_less, string_compare_lt_iff]
    · simp [e1, e2, to_weak_eq_less, string_compare_lt_iff]
  · simp [e1, to_weak_eq_less, string_compare_lt_iff]

theorem operator_cmp_greater_iff (x y : GroceryItem) :
    x.operator_cmp y = weak_ordering.greater ↔
      y._upcCode < x._upcCode ∨ (x._upcCode = y._upcCode ∧
        (y._productName < x._productName ∨ (x._productName = y._productName ∧
          (y._brandName < x._brandName ∨ (x._brandName = y._brandName ∧
            ¬ machine_prices_close x._price y._price ∧ Double.lt x._price y._price = false))))) := by
  unfold GroceryItem.operator_cmp
  simp only [ne_eq, string_compare_eq_iff, ← floating_point_is_equal_iff]
  by_cases e1 : x._upcCode = y._upcCode
  · by_cases e2 : x._productName = y._productName
    · by_cases e3 : x._brandName = y._brandName
      · cases hf : floating_point_is_equal x._price y._price
        · cases hl : Double.lt x._price y._price <;> simp [e1, e2, e3, hf, hl]
        · simp [e1, e2, e3, hf]
      · simp [e1, e2, e3, to_weak_eq_greater, string_compare_gt_iff]
    · simp [e1, e2, to_weak_eq_greater, string_compare_gt_iff]
  · simp [e1, to_weak_eq_greater, string_compare_gt_iff]

theorem operator_cmp_equivalent_iff (x y : GroceryItem) :
    x.operator_cmp y = weak_ordering.equivalent ↔
      x._upcCode = y._upcCode ∧ x._productName = y._productName ∧ x._brandName = y._brandName
        ∧ machine_prices_close x._price y._price := by
  unfold GroceryItem.operator_cmp
  simp only [ne_eq, string_compare_eq_iff, ← floating_point_is_equal_iff]
  by_cases e1 : x._upcCode = y._upcCode
  · by_cases e2 : x._productName = y._productName
    · by_cases e3 : x._brandName = y._brandName
      · cases hf : floating_point_is_equal x._price y._price
        · cases hl : Double.lt x._price y._price <;> simp [e1, e2, e3, hf, hl]
        · simp [e1, e2, e3, hf]
      · simp [e1, e2, e3, to_weak_eq_equivalent, string_compare_eq_iff]
    · simp [e1, e2, to_weak_eq_equivalent, string_compare_eq_iff]
  · simp [e1, to_weak_eq_equivalent, string_compare_eq_iff]

theorem machine_tolerance_rule_self (a : ℚ) : machine_tolerance_rule a a := by
  unfold machine_tolerance_rule
  left
  rw [sub_self, binary64_eq_round_binary, round_binary_zero, abs_zero]
  exact long_double_epsilon1_pos

theorem abs_binary64_sub_of_lt (a b : ℚ) (h : a < b) : |binary64 (a - b)| = binary64 (b - a) := by
  rw [abs_binary64_sub_comm, binary64_eq_round_binary]
  exact abs_of_nonneg (round_binary_nonneg _ _ (by linarith))

theorem not_machine_tolerance_rule_of_lt_of_lt (a b c : ℚ) (hab : a < b) (hbc : b < c)
    (h1 : ¬ machine_tolerance_rule a b) (h2 : ¬ machine_tolerance_rule b c) :
    ¬ machine_tolerance_rule a c := by
  unfold machine_tolerance_rule at *
  push_neg at h1 h2 ⊢
  rw [abs_binary64_sub_of_lt a b hab] at h1
  rw [abs_binary64_sub_of_lt b c hbc] at h2
  rw [abs_binary64_sub_of_lt a c (lt_trans hab hbc)]
  have m1 : binary64 (b - a) ≤ binary64 (c - a) := by
    rw [binary64_eq_round_binary, binary64_eq_round_binary]
    exact round_binary_mono _ _ _ (by linarith)
  have m2 : binary64 (c - b) ≤ binary64 (c - a) := by
    rw [binary64_eq_round_binary, binary64_eq_round_binary]
    exact round_binary_mono _ _ _ (by linarith)
  have he : (0 : ℚ) ≤ long_double (1 / 100000000) :=
    round_binary_nonneg _ _ (by norm_num)
  refine ⟨le_trans h1.1 m1, ?_⟩
  rcases le_total |a| |c| with hac | hac
  · rw [max_eq_right hac]
    have : long_double (long_double (1 / 100000000) * |c|)
        ≤ long_double (long_double (1 / 100000000) * max |b| |c|) :=
      round_binary_mono _ _ _ (mul_le_mul_of_nonneg_left (le_max_right _ _) he)
    exact le_trans this (le_trans h2.2 m2)
  · rw [max_eq_left hac]
    have : long_double (long_double (1 / 100000000) * |a|)
        ≤ long_double (long_double (1 / 100000000) * max |a| |b|) :=
      round_binary_mono _ _ _ (mul_le_mul_of_nonneg_left (le_max_left _ _) he)
    exact le_trans this (le_trans h1.2 m1)

theorem price_step_antisymmetric (a b : ℚ) :
    (¬ machine_prices_close (Double.finite a) (Double.finite b)
        ∧ Double.lt (Double.finite a) (Double.finite b) = true)
      ↔ (¬ machine_prices_close (Double.finite b) (Double.finite a)
        ∧ Double.lt (Double.finite b) (Double.finite a) = false) := by
  simp only [machine_prices_close, Double.lt, decide_eq_true_eq, decide_eq_false_iff_not, not_lt]
  rw [machine_tolerance_rule_comm b a]
  constructor
  · rintro ⟨h1, h2⟩
    exact ⟨h1, le_of_lt h2⟩
  · rintro ⟨h1, h2⟩
    refine ⟨h1, lt_of_le_of_ne h2 ?_⟩
    intro e
    rw [e] at h1
    exact h1 (machine_tolerance_rule_self b)

/-- C15. Transitivity of the ordering on items with finite prices: when
`x <=> y` is less and `y <=> z` is less, `x <=> z` is less. -/
theorem operator_cmp_less_trans (x y z : GroceryItem) (a b c : ℚ)
    (hx : x._price = Double.finite a) (hy : y._price = Double.finite b)
    (hz : z._price = Double.finite c)
    (hxy : x.operator_cmp y = weak_ordering.less) (hyz : y.operator_cmp z = weak_ordering.less) :
    x.operator_cmp z = weak_ordering.less := by
  rw [operator_cmp_less_iff] at hxy hyz ⊢
  rw [hx, hy] at hxy
  rw [hy, hz] at hyz
  rw [hx, hz]
  rcases hxy with h1 | ⟨e1, hxy⟩
  · rcases hyz with h2 | ⟨f1, _⟩
    · exact Or.inl (lt_trans h1 h2)
    · exact Or.inl (f1 ▸ h1)
  rcases hyz with h2 | ⟨f1, hyz⟩
  · exact Or.inl (e1 ▸ h2)
  refine Or.inr ⟨e1.trans f1, ?_⟩
  rcases hxy with h1 | ⟨e2, hxy⟩
  · rcases hyz with h2 | ⟨f2, _⟩
    · exact Or.inl (lt_trans h1 h2)
    · exact Or.inl (f2 ▸ h1)
  rcases hyz with h2 | ⟨f2, hyz⟩
  · exact Or.inl (e2 ▸ h2)
  refine Or.inr ⟨e2.trans f2, ?_⟩
  rcases hxy with h1 | ⟨e3, hxy⟩
  · rcases hyz with h2 | ⟨f3, _⟩
    · exact Or.inl (lt_trans h1 h2)
    · exact Or.inl (f3 ▸ h1)
  rcases hyz with h2 | ⟨f3, hyz⟩
  · exact Or.inl (e3 ▸ h2)
  refine Or.inr ⟨e3.trans f3, ?_⟩
  simp only [machine_prices_close, Double.lt, decide_eq_true_eq] at hxy hyz ⊢
  exact ⟨not_machine_tolerance_rule_of_lt_of_lt a b c hxy.2 hyz.2 hxy.1 hyz.1,
    lt_trans hxy.2 hyz.2⟩

/-- C15, witness: three items with the UPC codes `A`, `B`, `C` and the same other
fields are ordered A less than B, B less than C, and A less than C. -/
theorem operator_cmp_less_trans_witness :
    (GroceryItem.ctor ['W'] ['X'] ['A'] (Double.finite (binary64 (mkRat 199 100)))).operator_cmp
        (GroceryItem.ctor ['W'] ['X'] ['B'] (Double.finite (binary64 (mkRat 199 100)))) = weak_ordering.less
    ∧ (GroceryItem.ctor ['W'] ['X'] ['B'] (Double.finite (binary64 (mkRat 199 100)))).operator_cmp
        (GroceryItem.ctor ['W'] ['X'] ['C'] (Double.finite (binary64 (mkRat 199 100)))) = weak_ordering.less
    ∧ (GroceryItem.ctor ['W'] ['X'] ['A'] (Double.finite (binary64 (mkRat 199 100)))).operator_cmp
        (GroceryItem.ctor ['W'] ['X'] ['C'] (Double.finite (binary64 (mkRat 199 100)))) = weak_ordering.less :=
  ⟨by decide, by decide,
   operator_cmp_less_trans
     (GroceryItem.ctor ['W'] ['X'] ['A'] (Double.finite (binary64 (mkRat 199 100))))
     (GroceryItem.ctor ['W'] ['X'] ['B'] (Double.finite (binary64 (mkRat 199 100))))
     (GroceryItem.ctor ['W'] ['X'] ['C'] (Double.finite (binary64 (mkRat 199 100))))
     (binary64 (mkRat 199 100)) (binary64 (mkRat 199 100)) (binary64 (mkRat 199 100)) rfl rfl rfl (by decide) (by decide)⟩

/-- C19, counterexample. An item whose price is `+inf` is not NaN, and compared
with itself it is greater in both directions: `inf - inf` is NaN, so the
tolerance test is false, and `inf < inf` is false.  So `y <=> x` is greater
while `x <=> y` is not less. -/
theorem operator_cmp_infinite_price :
    (GroceryItem.ctor ['W'] ['B'] ['1'] Double.posInf)._price ≠ Double.nan
    ∧ (GroceryItem.ctor ['W'] ['B'] ['1'] Double.posInf).operator_cmp
        (GroceryItem.ctor ['W'] ['B'] ['1'] Double.posInf) = weak_ordering.greater
    ∧ ¬ ((GroceryItem.ctor ['W'] ['B'] ['1'] Double.posInf).operator_cmp
          (GroceryItem.ctor ['W'] ['B'] ['1'] Double.posInf) = weak_ordering.less
        ↔ (GroceryItem.ctor ['W'] ['B'] ['1'] Double.posInf).operator_cmp
          (GroceryItem.ctor ['W'] ['B'] ['1'] Double.posInf) = weak_ordering.greater) := by
  decide!

/-- C19 as amended. Antisymmetry of the ordering on items with finite prices:
`x <=> y` is less if and only if `y <=> x` is greater, and `x <=> y` is
equivalent if and only if `y <=> x` is equivalent. -/
theorem operator_cmp_antisymmetric (x y : GroceryItem) (a b : ℚ)
    (hx : x._price = Double.finite a) (hy : y._price = Double.finite b) :
    (x.operator_cmp y = weak_ordering.less ↔ y.operator_cmp x = weak_ordering.greater)
    ∧ (x.operator_cmp y = weak_ordering.equivalent
        ↔ y.operator_cmp x = weak_ordering.equivalent) := by
  constructor
  · rw [operator_cmp_less_iff, operator_cmp_greater_iff, hx, hy]
    exact or_congr Iff.rfl (and_congr eq_comm (or_congr Iff.rfl (and_congr eq_comm
      (or_congr Iff.rfl (and_congr eq_comm (price_step_antisymmetric a b))))))
  · rw [operator_cmp_equivalent_iff, operator_cmp_equivalent_iff]
    exact and_congr eq_comm (and_congr eq_comm (and_congr eq_comm (prices_close_comm _ _)))

/-- C19 as amended, witness: the items with UPC codes `A` and `B` and the same
other fields. -/
theorem operator_cmp_antisymmetric_witness :
    ((GroceryItem.ctor ['W'] ['X'] ['A'] (Double.finite (binary64 (mkRat 199 100)))).operator_cmp
        (GroceryItem.ctor ['W'] ['X'] ['B'] (Double.finite (binary64 (mkRat 199 100)))) = weak_ordering.less
      ↔ (GroceryItem.ctor ['W'] ['X'] ['B'] (Double.finite (binary64 (mkRat 199 100)))).operator_cmp
        (GroceryItem.ctor ['W'] ['X'] ['A'] (Double.finite (binary64 (mkRat 199 100))))
          = weak_ordering.greater)
    ∧ (GroceryItem.ctor ['W'] ['X'] ['A'] (Double.finite (binary64 (mkRat 199 100)))).operator_cmp
        (GroceryItem.ctor ['W'] ['X'] ['B'] (Double.finite (binary64 (mkRat 199 100)))) = weak_ordering.less :=
  ⟨(operator_cmp_antisymmetric _ _ (binary64 (mkRat 199 100)) (binary64 (mkRat 199 100)) rfl rfl).1, by decide⟩

/-! ## Claims on the price field -/

theorem scan_sign_snd (b : List Char) : (scan_sign b).2 = after_sign b := by
  cases b with
  | nil => rfl
  | cons c rest =>
    by_cases h1 : c = '+'
    · simp [scan_sign, after_sign, h1]
    · by_cases h2 : c = '-'
      · simp [scan_sign, after_sign, h1, h2]
      · simp [scan_sign, after_sign, h1, h2]

theorem scan_float_stop (c : Char) (rest : List Char) (st : float_scan)
    (hc : c.isDigit = false) (hm : st.found_mantissa = false)
    (hd : ¬ c = '.' ∨ st.found_dec = true) :
    scan_float (c :: rest) st = (st, c :: rest) := by
  rcases hd with hd | hd <;> cases rest <;> simp [scan_float, hc, hm, hd]

theorem scan_float_point (rest : List Char) (st : float_scan)
    (hd : st.found_dec = false) (hs : st.found_sci = false) :
    scan_float ('.' :: rest) st = scan_float rest { st with found_dec := true } := by
  have h : ('.' : Char).isDigit = false := by decide
  cases rest <;> simp [scan_float, h, hd, hs]

theorem scan_float_no_mantissa (b : List Char) (h : begins_with_number b = false) :
    (scan_float (after_sign b) float_scan.init).1.found_mantissa = false := by
  unfold begins_with_number at h
  cases hb : after_sign b with
  | nil => simp [scan_float, float_scan.init]
  | cons c rest =>
    rw [hb] at h
    cases rest with
    | nil =>
      simp only at h
      by_cases hp : c = '.'
      · subst hp
        rw [scan_float_point _ _ rfl rfl]
        simp [scan_float, float_scan.init]
      · rw [scan_float_stop c [] _ h rfl (Or.inl hp)]
        rfl
    | cons d rest =>
      simp only [Bool.or_eq_false_iff, Bool.and_eq_false_iff, decide_eq_false_iff_not] at h
      by_cases hp : c = '.'
      · subst hp
        have hd : d.isDigit = false := by
          rcases h.2 with h2 | h2
          · exact absurd rfl h2
          · exact h2
        rw [scan_float_point _ _ rfl rfl, scan_float_stop d rest _ hd rfl (Or.inr rfl)]
        rfl
      · rw [scan_float_stop c (d :: rest) _ h.1 rfl (Or.inl hp)]
        rfl

theorem double_in_failbit_of_not_number (s : istream)
    (h : begins_with_number (skipws s.buf) = false) : (double_in s).1.failbit = true := by
  cases hf : s.failbit
  · have hm := scan_float_no_mantissa (skipws s.buf) h
    rw [← scan_sign_snd] at hm
    simp [double_in, hf, hm]
  · rw [double_in_of_failbit s hf]; exact hf

theorem begins_with_number_nil : begins_with_number [] = false := by decide

/-- C11, counterexample. In the text `"111", "BrandA", "Widget", .5` the price
field is `.5`, which does not begin with an optional sign and digits, and
`operator>>` succeeds on it, with the price 0.5. -/
theorem operator_extract_accepts_leading_point :
    price_field { buf := "\"111\", \"BrandA\", \"Widget\", .5".toList, failbit := false }
      = ['.', '5']
    ∧ begins_with_digits ['.', '5'] = false
    ∧ operator_extract
        { buf := "\"111\", \"BrandA\", \"Widget\", .5".toList, failbit := false }
        GroceryItem.default_ctor
      = ({ buf := [], failbit := false },
         GroceryItem.ctor "Widget".toList "BrandA".toList "111".toList
           (Double.finite (mkRat 5 10))) := by
  decide

/-- C11 as amended. `operator>>` rejects a missing or non-numeric price: it
reports failure on every input text that ends before the price field, and on
every input text whose price field does not begin, after an optional sign, with
a digit or with a decimal point and a digit. -/
theorem operator_extract_price_field (stream : istream) (g : GroceryItem)
    (h : price_field stream = [] ∨ begins_with_number (price_field stream) = false) :
    (operator_extract stream g).1.failbit = true := by
  have hn : begins_with_number (price_field stream) = false := by
    rcases h with h | h
    · rw [h]; exact begins_with_number_nil
    · exact h
  rw [operator_extract_failbit]
  exact double_in_failbit_of_not_number _ hn

/-- C11 as amended, witness: the text `"111", "BrandA", "Widget", abc`, whose
price field is `abc`, fails. -/
theorem operator_extract_price_field_witness :
    price_field { buf := "\"111\", \"BrandA\", \"Widget\", abc".toList, failbit := false }
      = ['a', 'b', 'c']
    ∧ (operator_extract
        { buf := "\"111\", \"BrandA\", \"Widget\", abc".toList, failbit := false }
        GroceryItem.default_ctor).1.failbit = true :=
  ⟨by decide, operator_extract_price_field _ _ (Or.inr (by decide))⟩

/-! ## Claims on white space -/

theorem skipws_white_append (ws l : List Char) (h : is_white ws = true) :
    skipws (ws ++ l) = skipws l := by
  induction ws with
  | nil => rfl
  | cons c ws ih =>
    simp only [is_white, List.all_cons, Bool.and_eq_true] at h
    rw [List.cons_append, skipws_cons_of_isspace c _ h.1]
    exact ih (by simpa [is_white] using h.2)

theorem char_in_white (ws l : List Char) (h : is_white ws = true) :
    char_in { buf := ws ++ l, failbit := false } = char_in { buf := l, failbit := false } := by
  simp [char_in, skipws_white_append ws l h]

theorem quoted_in_white (ws l : List Char) (h : is_white ws = true) :
    quoted_in { buf := ws ++ l, failbit := false } = quoted_in { buf := l, failbit := false } := by
  simp [quoted_in, char_in_white ws l h]

theorem double_in_white (ws l : List Char) (h : is_white ws = true) :
    double_in { buf := ws ++ l, failbit := false } = double_in { buf := l, failbit := false } := by
  simp [double_in, skipws_white_append ws l h]

theorem operator_extract_spaced_text (ws0 ws1 ws2 ws3 ws4 ws5 ws6 u b p rest : List Char)
    (g : GroceryItem) (h0 : is_white ws0 = true) (h1 : is_white ws1 = true)
    (h2 : is_white ws2 = true) (h3 : is_white ws3 = true) (h4 : is_white ws4 = true)
    (h5 : is_white ws5 = true) (h6 : is_white ws6 = true) :
    operator_extract
        { buf := spaced_text ws0 ws1 ws2 ws3 ws4 ws5 ws6 u b p rest, failbit := false } g
      = if (double_in { buf := rest, failbit := false }).1.ok then
          ((double_in { buf := rest, failbit := false }).1,
           GroceryItem.ctor p b u (double_in { buf := rest, failbit := false }).2)
        else ((double_in { buf := rest, failbit := false }).1.setstate_failbit, g) := by
  have e1 : read_upcCode
        { buf := spaced_text ws0 ws1 ws2 ws3 ws4 ws5 ws6 u b p rest, failbit := false }
      = ({ buf := ws1 ++ ',' :: (ws2 ++ (quoted_out b ++ (ws3 ++ ',' :: (ws4 ++
            (quoted_out p ++ (ws5 ++ ',' :: (ws6 ++ rest))))))), failbit := false }, u) := by
    simp only [read_upcCode, spaced_text]
    rw [quoted_in_white _ _ h0, quoted_in_quoted_out]
  have e2 : read_brandName
        { buf := spaced_text ws0 ws1 ws2 ws3 ws4 ws5 ws6 u b p rest, failbit := false }
      = ({ buf := ws3 ++ ',' :: (ws4 ++ (quoted_out p ++ (ws5 ++ ',' :: (ws6 ++ rest)))),
           failbit := false }, b) := by
    simp only [read_brandName, e1]
    rw [char_in_white _ _ h1, char_in_cons ',' _ isspace_comma]
    simp only []
    rw [quoted_in_white _ _ h2, quoted_in_quoted_out]
  have e3 : read_productName
        { buf := spaced_text ws0 ws1 ws2 ws3 ws4 ws5 ws6 u b p rest, failbit := false }
      = ({ buf := ws5 ++ ',' :: (ws6 ++ rest), failbit := false }, p) := by
    simp only [read_productName, e2]
    rw [char_in_white _ _ h3, char_in_cons ',' _ isspace_comma]
    simp only []
    rw [quoted_in_white _ _ h4, quoted_in_quoted_out]
  have e4 : read_price
        { buf := spaced_text ws0 ws1 ws2 ws3 ws4 ws5 ws6 u b p rest, failbit := false }
      = double_in { buf := rest, failbit := false } := by
    simp only [read_price, e3]
    rw [char_in_white _ _ h5, char_in_cons ',' _ isspace_comma]
    simp only []
    rw [double_in_white _ _ h6]
  simp [operator_extract, e1, e2, e3, e4]

/-- C20, counterexample. `operator>>` succeeds on the text
`111, BrandA, Widget, 1.99`, whose string fields are not quoted, and fails on the
text `111,BrandA, Widget, 1.99`, which is the same text without the space after
the first comma. -/
theorem operator_extract_white_space_unquoted :
    (operator_extract { buf := "111, BrandA, Widget, 1.99".toList, failbit := false }
        GroceryItem.default_ctor).1.failbit = false
    ∧ (operator_extract { buf := "111,BrandA, Widget, 1.99".toList, failbit := false }
        GroceryItem.default_ctor).1.failbit = true := by
  decide

/-- C20 as amended. On a text whose three string fields are quoted and whose
delimiters are commas, `operator>>` is insensitive to white space before any of
the four fields and before any of the three commas: with runs of white space in
these seven places the stream and the target after the call are the same as
without them. -/
theorem operator_extract_white_space (ws0 ws1 ws2 ws3 ws4 ws5 ws6 u b p rest : List Char)
    (g : GroceryItem) (h0 : is_white ws0 = true) (h1 : is_white ws1 = true)
    (h2 : is_white ws2 = true) (h3 : is_white ws3 = true) (h4 : is_white ws4 = true)
    (h5 : is_white ws5 = true) (h6 : is_white ws6 = true) :
    operator_extract
        { buf := spaced_text ws0 ws1 ws2 ws3 ws4 ws5 ws6 u b p rest, failbit := false } g
      = operator_extract
        { buf := spaced_text [] [] [] [] [] [] [] u b p rest, failbit := false } g := by
  rw [operator_extract_spaced_text ws0 ws1 ws2 ws3 ws4 ws5 ws6 u b p rest g h0 h1 h2 h3 h4 h5 h6,
    operator_extract_spaced_text [] [] [] [] [] [] [] u b p rest g rfl rfl rfl rfl rfl rfl rfl]

/-- C20 as amended, witness: the comma-space form `"111", "BrandA", "Widget", 1.99`
parses to the same item as `"111","BrandA","Widget",1.99`, and the parse
succeeds. -/
theorem operator_extract_white_space_witness :
    spaced_text [] [] [' '] [] [' '] [] [' '] "111".toList "BrandA".toList "Widget".toList
        "1.99".toList
      = "\"111\", \"BrandA\", \"Widget\", 1.99".toList
    ∧ spaced_text [] [] [] [] [] [] [] "111".toList "BrandA".toList "Widget".toList "1.99".toList
      = "\"111\",\"BrandA\",\"Widget\",1.99".toList
    ∧ (operator_extract
        { buf := spaced_text [] [] [] [] [] [] [] "111".toList "BrandA".toList "Widget".toList
            "1.99".toList, failbit := false } GroceryItem.default_ctor).1.failbit = false
    ∧ operator_extract
        { buf := spaced_text [] [] [' '] [] [' '] [] [' '] "111".toList "BrandA".toList
            "Widget".toList "1.99".toList, failbit := false } GroceryItem.default_ctor
      = operator_extract
        { buf := spaced_text [] [] [] [] [] [] [] "111".toList "BrandA".toList "Widget".toList
            "1.99".toList, failbit := false } GroceryItem.default_ctor :=
  ⟨by decide, by decide, by decide,
   operator_extract_white_space [] [] [' '] [] [' '] [] [' '] "111".toList "BrandA".toList
     "Widget".toList "1.99".toList GroceryItem.default_ctor
     (by decide) (by decide) (by decide) (by decide) (by decide) (by decide) (by decide)⟩

/-! ## Claims on the driver -/

theorem skipws_length_le (b : List Char) : (skipws b).length ≤ b.length := by
  induction b with
  | nil => simp [skipws]
  | cons c rest ih =>
    cases h : isspace c
    · rw [skipws_cons_of_not_isspace c rest h]
    · rw [skipws_cons_of_isspace c rest h]
      exact Nat.le_succ_of_le ih

theorem char_in_buf_le (s : istream) : (char_in s).1.buf.length ≤ s.buf.length := by
  unfold char_in
  cases hf : s.failbit
  · cases hb : skipws s.buf with
    | nil => simp
    | cons c rest =>
      have := skipws_length_le s.buf
      rw [hb] at this
      simp only [List.length_cons] at this
      simp
      omega
  · simp

theorem char_in_buf_lt (s : istream) (h : (char_in s).1.failbit = false) :
    (char_in s).1.buf.length < s.buf.length := by
  unfold char_in at h ⊢
  cases hf : s.failbit
  · cases hb : skipws s.buf with
    | nil => simp [hf, hb] at h
    | cons c rest =>
      have := skipws_length_le s.buf
      rw [hb] at this
      simp only [List.length_cons] at this
      simp
      omega
  · simp [hf] at h

theorem dropWhile_length_le (f : Char → Bool) (l : List Char) :
    (l.dropWhile f).length ≤ l.length := by
  induction l with
  | nil => simp
  | cons c rest ih =>
    simp only [List.dropWhile]
    cases f c
    · simp
    · exact Nat.le_succ_of_le ih

theorem string_in_buf_le (s : istream) : (string_in s).1.buf.length ≤ s.buf.length := by
  unfold string_in
  cases hf : s.failbit
  · have h1 := dropWhile_length_le (fun c => !isspace c) (skipws s.buf)
    have h2 := skipws_length_le s.buf
    by_cases hw : (skipws s.buf).takeWhile (fun c => !isspace c) = []
    · simp [hw]; omega
    · simp [hw]; omega
  · simp

theorem quoted_body_buf_le (l : List Char) : (quoted_body l).1.buf.length ≤ l.length := by
  induction l using quoted_body.induct with
  | case1 => simp [quoted_body]
  | case2 => simp [quoted_body]
  | case3 c rest ih =>
    rw [quoted_body_escape]
    simp only [List.length_cons]
    omega
  | case4 rest hd =>
    rw [quoted_body_delim]
    simp
  | case5 c rest hc hd ih =>
    rw [quoted_body_other _ _ hc hd]
    simp only [List.length_cons]
    omega

theorem quoted_in_buf_le (s : istream) : (quoted_in s).1.buf.length ≤ s.buf.length := by
  unfold quoted_in
  have hle := char_in_buf_le s
  cases hc : char_in s with
  | mk s1 oc =>
    cases oc with
    | none =>
      rw [hc] at hle
      exact hle
    | some c =>
      have hlt : s1.buf.length < s.buf.length := by
        have hok : (char_in s).1.failbit = false := by
          unfold char_in at hc ⊢
          cases hf : s.failbit
          · cases hb : skipws s.buf with
            | nil => simp [hf, hb] at hc
            | cons c rest => simp
          · simp [hf] at hc
        have := char_in_buf_lt s hok
        rw [hc] at this
        exact this
      by_cases hd : c = delim
      · have := quoted_body_buf_le s1.buf
        simp only [hd, ne_eq, not_true_eq_false, if_false]
        omega
      · have := string_in_buf_le { buf := c :: s1.buf, failbit := false }
        simp only [List.length_cons] at this
        simp only [ne_eq, hd, not_false_eq_true, if_true]
        omega

theorem scan_float_cons (c : Char) (rest : List Char) (st : float_scan) :
    scan_float (c :: rest) st =
    if c.isDigit then
      if st.found_sci then
        scan_float rest { st with exp := st.exp * 10 + digit_value c, found_exp := true }
      else
        scan_float rest { st with mant := st.mant * 10 + digit_value c,
                                  frac := if st.found_dec then st.frac + 1 else st.frac,
                                  found_mantissa := true }
    else if c = '.' && !st.found_dec && !st.found_sci then
      scan_float rest { st with found_dec := true }
    else if (c = 'e' || c = 'E') && !st.found_sci && st.found_mantissa then
      match rest with
      | [] => ({ st with found_sci := true }, [])
      | d :: rest2 =>
        if d = '+' then scan_float rest2 { st with found_sci := true, exp_neg := false }
        else if d = '-' then scan_float rest2 { st with found_sci := true, exp_neg := true }
        else scan_float (d :: rest2) { st with found_sci := true }
    else (st, c :: rest) := by
  cases rest with
  | nil => simp [scan_float]
  | cons d r => conv_lhs => rw [scan_float]


theorem scan_float_length_le (l : List Char) (st : float_scan) :
    (scan_float l st).2.length ≤ l.length := by
  obtain ⟨n, hn⟩ : ∃ n, l.length = n := ⟨_, rfl⟩
  induction n using Nat.strong_induction_on generalizing l st with
  | _ n ih =>
    cases l with
    | nil => simp [scan_float]
    | cons c rest =>
      subst hn
      have hrest : ∀ st2, (scan_float rest st2).2.length ≤ rest.length :=
        fun st2 => ih rest.length (by simp) rest st2 rfl
      rw [scan_float_cons]
      simp only [List.length_cons]
      split
      · split
        · exact Nat.le_succ_of_le (hrest _)
        · exact Nat.le_succ_of_le (hrest _)
      · split
        · exact Nat.le_succ_of_le (hrest _)
        · split
          · cases rest with
            | nil => simp
            | cons d rest2 =>
              have hrest2 : ∀ st2, (scan_float rest2 st2).2.length ≤ rest2.length :=
                fun st2 => ih rest2.length (by simp only [List.length_cons]; omega) rest2 st2 rfl
              simp only [List.length_cons]
              split
              · exact Nat.le_succ_of_le (Nat.le_succ_of_le (hrest2 _))
              · split
                · exact Nat.le_succ_of_le (Nat.le_succ_of_le (hrest2 _))
                · have := hrest { st with found_sci := true }
                  simp only [List.length_cons] at this
                  omega
          · simp

theorem scan_sign_length_le (b : List Char) : (scan_sign b).2.length ≤ b.length := by
  rw [scan_sign_snd]
  cases b with
  | nil => simp [after_sign]
  | cons c rest =>
    by_cases h : c = '+' ∨ c = '-'
    · simp [after_sign, h]
    · simp [after_sign, h]

theorem double_in_buf_le (s : istream) : (double_in s).1.buf.length ≤ s.buf.length := by
  unfold double_in
  cases hf : s.failbit
  · have h1 := skipws_length_le s.buf
    have h2 := scan_sign_length_le (skipws s.buf)
    have h3 := scan_float_length_le (scan_sign (skipws s.buf)).2 float_scan.init
    simp only [Bool.false_eq_true, if_false]
    split <;> simp only <;> omega
  · simp

theorem read_price_buf_lt (s : istream) (h : (read_price s).1.failbit = false) :
    (read_price s).1.buf.length < s.buf.length := by
  have hd1 : (char_in (read_upcCode s).1).1.failbit = false := by
    cases hc : (char_in (read_upcCode s).1).1.failbit
    · rfl
    · have h2 : (read_brandName s).1.failbit = true := by
        unfold read_brandName
        rw [quoted_in_of_failbit _ hc]; exact hc
      rw [read_price_failbit s (read_productName_failbit s h2)] at h
      cases h
  have l1 : (read_upcCode s).1.buf.length ≤ s.buf.length := quoted_in_buf_le s
  have l2 := char_in_buf_lt (read_upcCode s).1 hd1
  have l3 : (read_brandName s).1.buf.length ≤ (char_in (read_upcCode s).1).1.buf.length :=
    quoted_in_buf_le _
  have l4 := char_in_buf_le (read_brandName s).1
  have l5 : (read_productName s).1.buf.length ≤ (char_in (read_brandName s).1).1.buf.length :=
    quoted_in_buf_le _
  have l6 := char_in_buf_le (read_productName s).1
  have l7 : (read_price s).1.buf.length ≤ (char_in (read_productName s).1).1.buf.length :=
    double_in_buf_le _
  omega

theorem operator_extract_buf_lt (s : istream) (g : GroceryItem)
    (h : (operator_extract s g).1.failbit = false) :
    (operator_extract s g).1.buf.length < s.buf.length := by
  rw [operator_extract_failbit] at h
  have := read_price_buf_lt s h
  simp [operator_extract, istream.ok, h, this]

theorem main_read_reads (fuel : Nat) (s : istream) (acc : List GroceryItem)
    (h : s.buf.length < fuel) :
    ∃ items, reads s items ∧ main_read fuel s acc = some (acc ++ items) := by
  induction fuel generalizing s acc with
  | zero => exact absurd h (Nat.not_lt_zero _)
  | succ fuel ih =>
    cases hf : (operator_extract s GroceryItem.default_ctor).1.failbit
    · have hlt := operator_extract_buf_lt s GroceryItem.default_ctor hf
      obtain ⟨items, hr, hm⟩ := ih (operator_extract s GroceryItem.default_ctor).1
        (acc ++ [(operator_extract s GroceryItem.default_ctor).2]) (by omega)
      refine ⟨(operator_extract s GroceryItem.default_ctor).2 :: items,
        reads.more s items hf hr, ?_⟩
      simp [main_read, istream.ok, hf, hm]
    · exact ⟨[], reads.stop s hf, by simp [main_read, istream.ok, hf]⟩

theorem operator_insert_append (cout : List Char) (g : GroceryItem) :
    operator_insert cout g = cout ++ operator_insert [] g := by
  simp [operator_insert]

theorem main_write_eq (items : List GroceryItem) (i : Nat) (cout : List Char)
    (h : i ≤ items.length) :
    main_write items i cout
      = cout ++ (items.take i).reverse.flatMap
          (fun g => operator_insert [] g ++ [Char.ofNat 10]) := by
  induction i generalizing cout with
  | zero => simp [main_write]
  | succ i ih =>
    have hi : i < items.length := h
    have hg : items.get? i = some (items.get ⟨i, hi⟩) := List.get?_eq_get hi
    have ht : items.take (i + 1) = items.take i ++ [items.get ⟨i, hi⟩] := by
      rw [List.take_succ, ← List.get?_eq_getElem?, hg]
      rfl
    rw [main_write, hg]
    simp only []
    rw [ih _ (Nat.le_of_lt hi), ht, operator_insert_append cout]
    simp only [List.reverse_append, List.reverse_cons, List.reverse_nil, List.nil_append,
      List.flatMap_cons, List.singleton_append, List.append_assoc, List.cons_append]

/-- C16. The driver end to end: for every input the reading loop of `main`
terminates, the records it keeps are the records that `operator>>` parses one
after the other up to the first failure, in arrival order, and the output is
what `operator<<` writes for each of them, in reverse arrival order, one per
line.  On the two input lines of the specification the output is the two
records in reverse order, the price 2.50 written as `2.5`. -/
theorem main_end_to_end :
    (∀ input : List Char, ∃ items : List GroceryItem,
        reads { buf := input, failbit := false } items ∧ main input = some (spec_output items))
    ∧ main "\"111\", \"BrandA\", \"Widget\", 1.99\n\"222\", \"BrandB\", \"Gadget\", 2.50\n".toList
      = some "\"222\", \"BrandB\", \"Gadget\", 2.5\n\"111\", \"BrandA\", \"Widget\", 1.99\n".toList := by
  constructor
  · intro input
    obtain ⟨items, hr, hm⟩ := main_read_reads (input.length + 1)
      { buf := input, failbit := false } [] (Nat.lt_succ_self _)
    refine ⟨items, hr, ?_⟩
    unfold main
    rw [hm]
    simp only [List.nil_append]
    rw [main_write_eq items items.length [] (Nat.le_refl _)]
    simp [spec_output]
  · decide

/-! ## Claims on the round trip of the string fields -/

theorem digitChar_isDigit (k : Nat) (h : k < 10) : (Nat.digitChar k).isDigit = true := by
  interval_cases k <;> decide

theorem toDigitsCore_digits (fuel n : Nat) (ds : List Char)
    (h : ∀ c ∈ ds, c.isDigit = true) :
    ∀ c ∈ Nat.toDigitsCore 10 fuel n ds, c.isDigit = true := by
  induction fuel generalizing n ds with
  | zero => simpa [Nat.toDigitsCore] using h
  | succ fuel ih =>
    have hd : ∀ c ∈ Nat.digitChar (n % 10) :: ds, c.isDigit = true := by
      intro c hc
      rcases List.mem_cons.mp hc with e | hm
      · rw [e]; exact digitChar_isDigit _ (Nat.mod_lt _ (by decide))
      · exact h c hm
    simp only [Nat.toDigitsCore]
    split
    · exact hd
    · exact ih _ _ hd

theorem toDigitsCore_ne_nil (fuel n : Nat) (ds : List Char) (h : ds ≠ []) :
    Nat.toDigitsCore 10 fuel n ds ≠ [] := by
  induction fuel generalizing n ds with
  | zero => simpa [Nat.toDigitsCore] using h
  | succ fuel ih =>
    simp only [Nat.toDigitsCore]
    split
    · exact List.cons_ne_nil _ _
    · exact ih _ _ (List.cons_ne_nil _ _)

theorem toDigits_digits (n : Nat) : ∀ c ∈ Nat.toDigits 10 n, c.isDigit = true :=
  toDigitsCore_digits _ _ [] (fun _ h => absurd h (List.not_mem_nil _))

theorem toDigits_ne_nil (n : Nat) : Nat.toDigits 10 n ≠ [] := by
  unfold Nat.toDigits
  simp only [Nat.toDigitsCore]
  split
  · exact List.cons_ne_nil _ _
  · exact toDigitsCore_ne_nil _ _ _ (List.cons_ne_nil _ _)

theorem strip_zeros_digits (l : List Char) (h : ∀ c ∈ l, c.isDigit = true) :
    ∀ c ∈ strip_zeros l, c.isDigit = true := by
  intro c hc
  unfold strip_zeros at hc
  rw [List.mem_reverse] at hc
  exact h c (List.mem_reverse.mp ((List.dropWhile_sublist _).subset hc))

theorem isspace_of_isDigit (c : Char) (h : c.isDigit = true) : isspace c = false := by
  cases hs : isspace c
  · rfl
  · simp only [isspace, Bool.or_eq_true, decide_eq_true_eq] at hs
    rcases hs with ((((hs | hs) | hs) | hs) | hs) | hs <;> rw [hs] at h <;> exact absurd h (by decide)

theorem scan_sign_of_isDigit (c : Char) (rest : List Char) (h : c.isDigit = true) :
    scan_sign (c :: rest) = (false, c :: rest) := by
  have h1 : ¬ c = '+' := by intro e; rw [e] at h; exact absurd h (by decide)
  have h2 : ¬ c = '-' := by intro e; rw [e] at h; exact absurd h (by decide)
  simp [scan_sign, h1, h2]

theorem scan_float_digits_mant (ds rest : List Char) (st : float_scan)
    (hd : ∀ c ∈ ds, c.isDigit = true) (hs : st.found_sci = false) :
    ∃ st2, scan_float (ds ++ rest) st = scan_float rest st2 ∧ st2.found_sci = false
      ∧ st2.found_dec = st.found_dec
      ∧ (st.found_mantissa = true ∨ ds ≠ [] → st2.found_mantissa = true) := by
  induction ds generalizing st with
  | nil => exact ⟨st, rfl, hs, rfl, fun h => h.elim id (fun h => absurd rfl h)⟩
  | cons c ds ih =>
    have hc : c.isDigit = true := hd c (List.mem_cons_self _ _)
    obtain ⟨st2, h1, h2, h3, h4⟩ := ih
      { st with mant := st.mant * 10 + digit_value c,
                frac := if st.found_dec then st.frac + 1 else st.frac,
                found_mantissa := true }
      (fun x hx => hd x (List.mem_cons_of_mem _ hx)) hs
    refine ⟨st2, ?_, h2, h3, fun _ => h4 (Or.inl rfl)⟩
    rw [List.cons_append, scan_float_cons, if_pos hc,
      if_neg (by rw [hs]; exact Bool.false_ne_true)]
    exact h1

theorem scan_float_digits_exp (ds rest : List Char) (st : float_scan)
    (hd : ∀ c ∈ ds, c.isDigit = true) (hs : st.found_sci = true) :
    ∃ st2, scan_float (ds ++ rest) st = scan_float rest st2 ∧ st2.found_sci = true
      ∧ st2.found_mantissa = st.found_mantissa
      ∧ (st.found_exp = true ∨ ds ≠ [] → st2.found_exp = true) := by
  induction ds generalizing st with
  | nil => exact ⟨st, rfl, hs, rfl, fun h => h.elim id (fun h => absurd rfl h)⟩
  | cons c ds ih =>
    have hc : c.isDigit = true := hd c (List.mem_cons_self _ _)
    obtain ⟨st2, h1, h2, h3, h4⟩ := ih
      { st with exp := st.exp * 10 + digit_value c, found_exp := true }
      (fun x hx => hd x (List.mem_cons_of_mem _ hx)) hs
    refine ⟨st2, ?_, h2, h3, fun _ => h4 (Or.inl rfl)⟩
    rw [List.cons_append, scan_float_cons, if_pos hc, if_pos hs]
    exact h1

theorem scan_float_exponent (st : float_scan) (sg : Char) (exd : List Char)
    (hs : st.found_sci = false) (hm : st.found_mantissa = true)
    (hsg : sg = '+' ∨ sg = '-') (hne : exd ≠ []) (hd : ∀ c ∈ exd, c.isDigit = true) :
    ∃ st2, scan_float ('e' :: sg :: exd) st = (st2, []) ∧ st2.found_mantissa = true
      ∧ st2.found_exp = true := by
  have he : ('e' : Char).isDigit = false := by decide
  have key : ∀ st3 : float_scan, st3.found_sci = true → st3.found_mantissa = true →
      ∃ st2, scan_float exd st3 = (st2, []) ∧ st2.found_mantissa = true
        ∧ st2.found_exp = true := by
    intro st3 h3 m3
    obtain ⟨st4, e4, _, m4, x4⟩ := scan_float_digits_exp exd [] st3 hd h3
    rw [List.append_nil] at e4
    exact ⟨st4, by rw [e4]; simp [scan_float], by rw [m4, m3], x4 (Or.inr hne)⟩
  rw [scan_float_cons, if_neg (by rw [he]; exact Bool.false_ne_true)]
  simp only [hs, hm, Bool.not_false, Bool.and_true, Bool.and_false, Bool.false_eq_true,
    if_false, decide_True, Bool.true_or, if_true]
  rcases hsg with hsg | hsg
  · subst hsg
    simp only [if_true]
    exact key _ rfl rfl
  · subst hsg
    simp only [if_true]
    have : ¬ ('-' : Char) = '+' := by decide
    simp only [this, if_false]
    exact key _ rfl rfl

theorem scan_float_number (ip pt tl : List Char)
    (hip : ∀ c ∈ ip, c.isDigit = true) (hne : ip ≠ [])
    (hpt : pt = [] ∨ ∃ fp, pt = '.' :: fp ∧ ∀ c ∈ fp, c.isDigit = true)
    (htl : tl = [] ∨ ∃ sg exd, tl = 'e' :: sg :: exd ∧ (sg = '+' ∨ sg = '-') ∧ exd ≠ []
      ∧ ∀ c ∈ exd, c.isDigit = true) :
    ∃ st, scan_float (ip ++ (pt ++ tl)) float_scan.init = (st, [])
      ∧ st.found_mantissa = true ∧ (st.found_sci = false ∨ st.found_exp = true) := by
  obtain ⟨st1, e1, s1, d1, m1⟩ := scan_float_digits_mant ip (pt ++ tl) float_scan.init hip rfl
  have m1 := m1 (Or.inr hne)
  have step2 : ∃ st2, scan_float (pt ++ tl) st1 = scan_float tl st2 ∧ st2.found_sci = false
      ∧ st2.found_mantissa = true := by
    rcases hpt with hpt | ⟨fp, hpt, hfp⟩
    · subst hpt
      exact ⟨st1, rfl, s1, m1⟩
    · subst hpt
      obtain ⟨st2, e2, s2, _, m2⟩ := scan_float_digits_mant fp tl
        { st1 with found_dec := true } hfp s1
      refine ⟨st2, ?_, s2, m2 (Or.inl m1)⟩
      rw [List.cons_append, scan_float_point _ _ (by rw [d1]; rfl) s1]
      exact e2
  obtain ⟨st2, e2, s2, m2⟩ := step2
  rw [e1, e2]
  rcases htl with htl | ⟨sg, exd, htl, hsg, hxne, hxd⟩
  · subst htl
    exact ⟨st2, by simp [scan_float], m2, Or.inl s2⟩
  · subst htl
    obtain ⟨st3, e3, m3, x3⟩ := scan_float_exponent st2 sg exd s2 m2 hsg hxne hxd
    exact ⟨st3, e3, m3, Or.inr x3⟩

theorem take_digits_ne_nil (ds : List Char) (k : Nat) (h : ds ≠ []) : ds.take (k + 1) ≠ [] := by
  cases ds with
  | nil => exact absurd rfl h
  | cons c rest => simp

theorem format_g_shape (n d : Nat) :
    ∃ ip pt tl, format_g n d = ip ++ (pt ++ tl)
      ∧ (∀ c ∈ ip, c.isDigit = true) ∧ ip ≠ []
      ∧ (pt = [] ∨ ∃ fp, pt = '.' :: fp ∧ ∀ c ∈ fp, c.isDigit = true)
      ∧ (tl = [] ∨ ∃ sg exd, tl = 'e' :: sg :: exd ∧ (sg = '+' ∨ sg = '-') ∧ exd ≠ []
          ∧ ∀ c ∈ exd, c.isDigit = true) := by
  have hds := toDigits_digits (six_digits n d).1
  have hne := toDigits_ne_nil (six_digits n d).1
  have htake : ∀ k, ∀ c ∈ (Nat.toDigits 10 (six_digits n d).1).take k, c.isDigit = true :=
    fun k c hc => hds c (List.mem_of_mem_take hc)
  have hdrop : ∀ k, ∀ c ∈ strip_zeros ((Nat.toDigits 10 (six_digits n d).1).drop k),
      c.isDigit = true :=
    fun k => strip_zeros_digits _ (fun c hc => hds c (List.mem_of_mem_drop hc))
  have hzero : ('0' : Char).isDigit = true := by decide
  unfold format_g
  simp only []
  by_cases h1 : -4 ≤ (six_digits n d).2 ∧ (six_digits n d).2 < 6
  · rw [if_pos h1]
    by_cases h2 : 0 ≤ (six_digits n d).2
    · rw [if_pos h2]
      by_cases h3 : strip_zeros ((Nat.toDigits 10 (six_digits n d).1).drop
          ((six_digits n d).2.toNat + 1)) = []
      · rw [if_pos h3]
        exact ⟨(Nat.toDigits 10 (six_digits n d).1).take ((six_digits n d).2.toNat + 1), [], [],
          by simp, htake _, take_digits_ne_nil _ _ hne, Or.inl rfl, Or.inl rfl⟩
      · rw [if_neg h3]
        exact ⟨(Nat.toDigits 10 (six_digits n d).1).take ((six_digits n d).2.toNat + 1),
          '.' :: strip_zeros ((Nat.toDigits 10 (six_digits n d).1).drop
            ((six_digits n d).2.toNat + 1)), [],
          by simp, htake _, take_digits_ne_nil _ _ hne, Or.inr ⟨_, rfl, hdrop _⟩, Or.inl rfl⟩
    · rw [if_neg h2]
      refine ⟨['0'], '.' :: (List.replicate ((-(six_digits n d).2).toNat - 1) '0'
          ++ strip_zeros (Nat.toDigits 10 (six_digits n d).1)), [], by simp, ?_, by simp,
        Or.inr ⟨_, rfl, ?_⟩, Or.inl rfl⟩
      · intro c hc
        rw [List.mem_singleton.mp hc]; exact hzero
      · intro c hc
        rcases List.mem_append.mp hc with hr | hr
        · rw [(List.mem_replicate.mp hr).2]; exact hzero
        · exact strip_zeros_digits _ hds c hr
  · rw [if_neg h1]
    have hex : ∀ c ∈ (if (six_digits n d).2.natAbs < 10
          then '0' :: Nat.toDigits 10 (six_digits n d).2.natAbs
          else Nat.toDigits 10 (six_digits n d).2.natAbs), c.isDigit = true := by
      intro c hc
      split at hc
      · rcases List.mem_cons.mp hc with e | hm
        · rw [e]; exact hzero
        · exact toDigits_digits _ c hm
      · exact toDigits_digits _ c hc
    have hexne : (if (six_digits n d).2.natAbs < 10
          then '0' :: Nat.toDigits 10 (six_digits n d).2.natAbs
          else Nat.toDigits 10 (six_digits n d).2.natAbs) ≠ [] := by
      split
      · exact List.cons_ne_nil _ _
      · exact toDigits_ne_nil _
    have hsg : (if (six_digits n d).2 < 0 then '-' else '+') = '+'
        ∨ (if (six_digits n d).2 < 0 then '-' else '+') = '-' := by
      split
      · exact Or.inr rfl
      · exact Or.inl rfl
    by_cases h3 : strip_zeros ((Nat.toDigits 10 (six_digits n d).1).drop 1) = []
    · rw [if_pos h3]
      exact ⟨(Nat.toDigits 10 (six_digits n d).1).take 1, [],
        'e' :: (if (six_digits n d).2 < 0 then '-' else '+')
          :: (if (six_digits n d).2.natAbs < 10
              then '0' :: Nat.toDigits 10 (six_digits n d).2.natAbs
              else Nat.toDigits 10 (six_digits n d).2.natAbs),
        by simp, htake 1, take_digits_ne_nil _ 0 hne, Or.inl rfl,
        Or.inr ⟨_, _, rfl, hsg, hexne, hex⟩⟩
    · rw [if_neg h3]
      exact ⟨(Nat.toDigits 10 (six_digits n d).1).take 1,
        '.' :: strip_zeros ((Nat.toDigits 10 (six_digits n d).1).drop 1),
        'e' :: (if (six_digits n d).2 < 0 then '-' else '+')
          :: (if (six_digits n d).2.natAbs < 10
              then '0' :: Nat.toDigits 10 (six_digits n d).2.natAbs
              else Nat.toDigits 10 (six_digits n d).2.natAbs),
        by simp, htake 1, take_digits_ne_nil _ 0 hne,
        Or.inr ⟨_, rfl, hdrop 1⟩, Or.inr ⟨_, _, rfl, hsg, hexne, hex⟩⟩

theorem double_in_format_g (n d : Nat) :
    (double_in { buf := format_g n d, failbit := false }).1 = { buf := [], failbit := false }
    ∧ (double_in { buf := '-' :: format_g n d, failbit := false }).1
        = { buf := [], failbit := false } := by
  obtain ⟨ip, pt, tl, ht, hip, hne, hpt, htl⟩ := format_g_shape n d
  obtain ⟨st, hst, hm, hx⟩ := scan_float_number ip pt tl hip hne hpt htl
  rw [ht]
  cases ip with
  | nil => exact absurd rfl hne
  | cons c ip =>
    have hc : c.isDigit = true := hip c (List.mem_cons_self _ _)
    have hok : (st.found_mantissa && (!st.found_sci || st.found_exp)) = true := by
      rcases hx with hx | hx <;> simp [hm, hx]
    have hminus : isspace '-' = false := by decide
    rw [List.cons_append] at hst ⊢
    constructor
    · simp [double_in, skipws_cons_of_not_isspace c _ (isspace_of_isDigit c hc),
        scan_sign_of_isDigit c _ hc, hst, hok]
    · simp [double_in, skipws_cons_of_not_isspace '-' _ hminus, scan_sign, hst, hok]

theorem double_in_double_out (q : ℚ) :
    (double_in { buf := double_out (Double.finite q), failbit := false }).1
      = { buf := [], failbit := false } := by
  simp only [double_out]
  by_cases h0 : q.num = 0
  · rw [if_pos h0]
    decide
  · rw [if_neg h0]
    by_cases h1 : q.num < 0
    · rw [if_pos h1]
      exact (double_in_format_g _ _).2
    · rw [if_neg h1]
      exact (double_in_format_g _ _).1

theorem operator_insert_eq_record_text (r : GroceryItem) :
    operator_insert [] r
      = record_text r._upcCode r._brandName r._productName ',' ',' ',' (double_out r._price) := by
  simp [operator_insert, record_text]

/-- C18, counterexample. The item with UPC code `1`, brand `B`, product `W` and a
NaN price is written as `"1", "B", "W", nan`; the price field `nan` is not read
as a number, `operator>>` reports failure on that text, and the target keeps its
empty UPC code. -/
theorem string_fields_lost_with_nan_price :
    operator_insert [] (GroceryItem.ctor ['W'] ['B'] ['1'] Double.nan)
      = "\"1\", \"B\", \"W\", nan".toList
    ∧ (operator_extract
        { buf := operator_insert [] (GroceryItem.ctor ['W'] ['B'] ['1'] Double.nan),
          failbit := false } GroceryItem.default_ctor).1.failbit = true
    ∧ (operator_extract
        { buf := operator_insert [] (GroceryItem.ctor ['W'] ['B'] ['1'] Double.nan),
          failbit := false } GroceryItem.default_ctor).2.upcCode = [] := by
  decide

/-- C18 as amended. The string fields survive the codec exactly when the price
is finite: for every item with a finite price, whatever the characters of its
three string fields, parsing the text that `operator<<` writes for it succeeds
and yields an item whose UPC code, brand name and product name are identical to
those of the written item. -/
theorem string_fields_round_trip (r g : GroceryItem) (q : ℚ)
    (h : r._price = Double.finite q) :
    (operator_extract { buf := operator_insert [] r, failbit := false } g).1.failbit = false
    ∧ (operator_extract { buf := operator_insert [] r, failbit := false } g).2.upcCode
        = r.upcCode
    ∧ (operator_extract { buf := operator_insert [] r, failbit := false } g).2.brandName
        = r.brandName
    ∧ (operator_extract { buf := operator_insert [] r, failbit := false } g).2.productName
        = r.productName := by
  rw [operator_insert_eq_record_text,
    operator_extract_record_text _ _ _ ',' ',' ',' _ g isspace_comma isspace_comma isspace_comma,
    h]
  have hd := double_in_double_out q
  simp [istream.ok, hd, GroceryItem.ctor, GroceryItem.upcCode, GroceryItem.brandName,
    GroceryItem.productName]

/-- C18 as amended, witness: an item with the empty UPC code, the brand name
`x, y` and a product name made of a double quote, a backslash, a space and a
newline, with the price 1.99. -/
theorem string_fields_round_trip_witness :
    (operator_extract
        { buf := operator_insert []
            (GroceryItem.ctor [Char.ofNat 34, Char.ofNat 92, ' ', Char.ofNat 10] ['x', ',', ' ', 'y']
              [] (Double.finite (binary64 (mkRat 199 100)))),
          failbit := false } GroceryItem.default_ctor).1.failbit = false
    ∧ (operator_extract
        { buf := operator_insert []
            (GroceryItem.ctor [Char.ofNat 34, Char.ofNat 92, ' ', Char.ofNat 10] ['x', ',', ' ', 'y']
              [] (Double.finite (binary64 (mkRat 199 100)))),
          failbit := false } GroceryItem.default_ctor).2.productName
      = [Char.ofNat 34, Char.ofNat 92, ' ', Char.ofNat 10] :=
  ⟨(string_fields_round_trip
      (GroceryItem.ctor [Char.ofNat 34, Char.ofNat 92, ' ', Char.ofNat 10] ['x', ',', ' ', 'y']
        [] (Double.finite (binary64 (mkRat 199 100))))
      GroceryItem.default_ctor (binary64 (mkRat 199 100)) rfl).1,
   (string_fields_round_trip
      (GroceryItem.ctor [Char.ofNat 34, Char.ofNat 92, ' ', Char.ofNat 10] ['x', ',', ' ', 'y']
        [] (Double.finite (binary64 (mkRat 199 100))))
      GroceryItem.default_ctor (binary64 (mkRat 199 100)) rfl).2.2.2⟩

end GroceryItemSpec
